import Mathlib

/-! # Parallel command layer of xara (`SRC/api/tclCommandPackage/commands/parallel.cpp`)

A shallow embedding of the process-wide partitioning state with
`partitionModel`, and of the `send`, `recv`, `barrier` and `partition`
commands with the transport they drive, followed by theorems about them.  Heap
objects are identified by the serial number of the `new` that created them;
`delete[]` is recorded in a list of freed blocks.

Two numerical kernels are embedded as well, over an arbitrary field:
`CrisfieldTransform::update` and the volume updates of `ParticleFiniteStrain`.
-/

namespace Xara

/-! ## Partitioning state (`_PARALLEL_PROCESSING`) -/

/-- The three ways the file can be compiled: neither macro defined,
`_PARALLEL_INTERPRETERS`, or `_PARALLEL_PROCESSING`. -/
inductive BuildConfig where
  | sequential
  | parallelInterpreters
  | parallelProcessing
deriving DecidableEq, Repr

/-- A `Channel *`: the handle of a transport end point. -/
structure Channel where
  handle : Nat
deriving DecidableEq, Repr

/-- Which `DomainDecompositionAnalysis` subclass was constructed. -/
inductive AnalysisKind where
  | static
  | transient
deriving DecidableEq, Repr

/-- A `DomainDecompositionAnalysis` object created with `new`. -/
structure DomainDecompositionAnalysis where
  addr : Nat
  kind : AnalysisKind
deriving DecidableEq, Repr

/-- A `ShadowSubdomain` object: its heap identity, its tag, the channel
returned by `getChannelPtr()` and the analysis last given to
`setDomainDecompAnalysis` (if any). -/
structure ShadowSubdomain where
  addr : Nat
  tag : Int
  theChannel : Channel
  theAnalysis : Option DomainDecompositionAnalysis
deriving DecidableEq, Repr

/-- The array behind `OPS_theChannels`: the block it lives in and its slots.
A slot that was never assigned is `none`. -/
structure ChannelTable where
  addr : Nat
  slots : List (Option Channel)
deriving DecidableEq, Repr

/-- Arguments of one `theDomain.partition(...)` call. -/
structure PartitionCall where
  numPartitions : Int
  usingMainDomain : Bool
  mainPartitionId : Int
  eleTag : Int
deriving DecidableEq, Repr

/-- The part of `PartitionedDomain theDomain` the commands touch: the
registered subdomains (in registration order, which is the order the
subdomain iterator yields them), the partitioner installed with
`setPartitioner`, and the record of `partition` calls made on it. -/
structure PartitionedDomain where
  theSubdomains : List ShadowSubdomain
  thePartitioner : Option Nat
  partitionCalls : List PartitionCall
deriving DecidableEq, Repr

/-- The file-scope globals of the `_PARALLEL_PROCESSING` build together with
the heap bookkeeping (`heapNext` numbers the next `new`, `heapFreed` lists the
blocks given to `delete[]`).  `the_static_analysis` is the global pointer
tested by `partitionModel`; `none` is the null pointer. -/
structure Globals where
  OPS_NUM_SUBDOMAINS : Int
  OPS_PARTITIONED : Bool
  OPS_USING_MAIN_DOMAIN : Bool
  OPS_MAIN_DOMAIN_PARTITION_ID : Int
  theDomain : PartitionedDomain
  OPS_DOMAIN_PARTITIONER : Option Nat
  OPS_GRAPH_PARTITIONER : Option Nat
  OPS_theChannels : Option ChannelTable
  the_static_analysis : Option Nat
  heapNext : Nat
  heapFreed : List Nat
deriving DecidableEq, Repr

/-- Collaborators whose code is outside this file: the channel a
`ShadowSubdomain` constructor obtains from `OPS_MACHINE` (given the new
object's identity and its tag), and the result code of
`PartitionedDomain::partition` on a domain and its four arguments. -/
structure External where
  shadowChannel : Nat → Int → Channel
  cut : PartitionedDomain → Int → Bool → Int → Int → Int

/-- Modelled from the spec: `PartitionedDomain::addSubdomain` is not part of
the sources at hand; it registers the subdomain with the domain. -/
def PartitionedDomain.addSubdomain (d : PartitionedDomain) (sub : ShadowSubdomain) :
    PartitionedDomain :=
  { d with theSubdomains := d.theSubdomains ++ [sub] }

/-- The assignment `OPS_theChannels[i - 1] = c`. -/
def storeChannel (t : Option ChannelTable) (i : Nat) (c : Channel) : Option ChannelTable :=
  match t with
  | some tbl => some { tbl with slots := tbl.slots.set (i - 1) (some c) }
  | none => none

/-- Body of the loop `for (int i = 1; i <= OPS_NUM_SUBDOMAINS; i++)` of
`partitionModel`, run over the successive values of `i`. -/
def createSubdomains (ext : External) : List Nat → Globals → Globals
  | [], g => g
  | i :: rest, g =>
    if (i : Int) ≠ g.OPS_MAIN_DOMAIN_PARTITION_ID then
      let theSubdomain : ShadowSubdomain :=
        { addr := g.heapNext, tag := (i : Int),
          theChannel := ext.shadowChannel g.heapNext (i : Int), theAnalysis := none }
      createSubdomains ext rest
        { g with
          heapNext := g.heapNext + 1
          theDomain := g.theDomain.addSubdomain theSubdomain
          OPS_theChannels := storeChannel g.OPS_theChannels i theSubdomain.theChannel }
    else
      createSubdomains ext rest g

/-- The statement `if (OPS_theChannels != 0) delete[] OPS_theChannels;`. -/
def releaseChannels (g : Globals) : Globals :=
  match g.OPS_theChannels with
  | some tbl => { g with heapFreed := tbl.addr :: g.heapFreed }
  | none => g

/-- The block `if (OPS_DOMAIN_PARTITIONER == 0) { ... }`: a `Metis` and a
`DomainPartitioner` are created and the latter is installed in the domain. -/
def ensurePartitioner (g : Globals) : Globals :=
  match g.OPS_DOMAIN_PARTITIONER with
  | none =>
    { g with
      OPS_GRAPH_PARTITIONER := some g.heapNext
      OPS_DOMAIN_PARTITIONER := some (g.heapNext + 1)
      heapNext := g.heapNext + 2
      theDomain := { g.theDomain with thePartitioner := some (g.heapNext + 1) } }
  | some _ => g

/-- The statement `OPS_theChannels = new Channel *[OPS_NUM_SUBDOMAINS];`.
With a negative size `new` does not return (it throws), which is `none`. -/
def allocateChannels (g : Globals) : Option Globals :=
  if g.OPS_NUM_SUBDOMAINS < 0 then none
  else
    some { g with
      OPS_theChannels :=
        some { addr := g.heapNext, slots := List.replicate g.OPS_NUM_SUBDOMAINS.toNat none }
      heapNext := g.heapNext + 1 }

/-- Lines 119-142 of `partitionModel`: everything between the early return
and the `theDomain.partition` call. -/
def prepareCut (ext : External) (g : Globals) : Option Globals :=
  match allocateChannels (releaseChannels g) with
  | none => none
  | some g2 =>
    some (ensurePartitioner
      (createSubdomains ext (List.range' 1 g2.OPS_NUM_SUBDOMAINS.toNat) g2))

/-- The loop `while ((theSub = theSubdomains()) != 0)`: every subdomain the
iterator yields receives a newly created analysis of the given kind. -/
def bindAnalyses (kind : AnalysisKind) : List ShadowSubdomain → Nat → List ShadowSubdomain × Nat
  | [], h => ([], h)
  | sub :: rest, h =>
    let r := bindAnalyses kind rest (h + 1)
    ({ sub with theAnalysis := some { addr := h, kind := kind } } :: r.1, r.2)

/-- The test `the_static_analysis != 0` selecting the analysis class. -/
def analysisKind (g : Globals) : AnalysisKind :=
  match g.the_static_analysis with
  | some _ => AnalysisKind.static
  | none => AnalysisKind.transient

/-- The function `partitionModel(int eleTag)`.  The result is the returned
code and the globals afterwards; `none` when the function does not return. -/
def partitionModel (ext : External) (g : Globals) (eleTag : Int) : Option (Int × Globals) :=
  if g.OPS_PARTITIONED = true then some (0, g)
  else
    match prepareCut ext g with
    | none => none
    | some g4 =>
      let result := ext.cut g4.theDomain g4.OPS_NUM_SUBDOMAINS g4.OPS_USING_MAIN_DOMAIN
        g4.OPS_MAIN_DOMAIN_PARTITION_ID eleTag
      let g5 : Globals :=
        { g4 with
          theDomain :=
            { g4.theDomain with
              partitionCalls := g4.theDomain.partitionCalls ++
                [{ numPartitions := g4.OPS_NUM_SUBDOMAINS,
                   usingMainDomain := g4.OPS_USING_MAIN_DOMAIN,
                   mainPartitionId := g4.OPS_MAIN_DOMAIN_PARTITION_ID,
                   eleTag := eleTag }] } }
      if result < 0 then some (result, g5)
      else
        let bound := bindAnalyses (analysisKind g5) g5.theDomain.theSubdomains g5.heapNext
        some (result,
          { g5 with
            OPS_PARTITIONED := true
            theDomain := { g5.theDomain with theSubdomains := bound.1 }
            heapNext := bound.2 })

/-- A state before any partitioning: three partitions, partition 1 is the
main one, nothing registered, no channel table. -/
def freshGlobals : Globals :=
  { OPS_NUM_SUBDOMAINS := 3, OPS_PARTITIONED := false, OPS_USING_MAIN_DOMAIN := true,
    OPS_MAIN_DOMAIN_PARTITION_ID := 1,
    theDomain := { theSubdomains := [], thePartitioner := none, partitionCalls := [] },
    OPS_DOMAIN_PARTITIONER := none, OPS_GRAPH_PARTITIONER := none, OPS_theChannels := none,
    the_static_analysis := some 0, heapNext := 100, heapFreed := [] }

/-- A state that was partitioned earlier: the flag is set, a channel table
and a subdomain with its analysis are in place. -/
def partitionedGlobals : Globals :=
  { OPS_NUM_SUBDOMAINS := 2, OPS_PARTITIONED := true, OPS_USING_MAIN_DOMAIN := true,
    OPS_MAIN_DOMAIN_PARTITION_ID := 1,
    theDomain :=
      { theSubdomains :=
          [{ addr := 11, tag := 2, theChannel := { handle := 11 },
             theAnalysis := some { addr := 14, kind := AnalysisKind.static } }],
        thePartitioner := some 13,
        partitionCalls :=
          [{ numPartitions := 2, usingMainDomain := true, mainPartitionId := 1, eleTag := 0 }] },
    OPS_DOMAIN_PARTITIONER := some 13, OPS_GRAPH_PARTITIONER := some 12,
    OPS_theChannels := some { addr := 10, slots := [none, some { handle := 11 }] },
    the_static_analysis := some 0, heapNext := 15, heapFreed := [] }

/-- An unpartitioned state that still holds a channel table and a subdomain
from an earlier attempt. -/
def staleGlobals : Globals :=
  { OPS_NUM_SUBDOMAINS := 3, OPS_PARTITIONED := false, OPS_USING_MAIN_DOMAIN := true,
    OPS_MAIN_DOMAIN_PARTITION_ID := 2,
    theDomain :=
      { theSubdomains :=
          [{ addr := 41, tag := 9, theChannel := { handle := 77 }, theAnalysis := none }],
        thePartitioner := none, partitionCalls := [] },
    OPS_DOMAIN_PARTITIONER := none, OPS_GRAPH_PARTITIONER := none,
    OPS_theChannels :=
      some { addr := 40, slots := [some { handle := 77 }, some { handle := 78 }] },
    the_static_analysis := none, heapNext := 50, heapFreed := [] }

/-- The state `prepareCut` reaches from `freshGlobals`. -/
def freshPrepared : Globals :=
  { OPS_NUM_SUBDOMAINS := 3, OPS_PARTITIONED := false, OPS_USING_MAIN_DOMAIN := true,
    OPS_MAIN_DOMAIN_PARTITION_ID := 1,
    theDomain :=
      { theSubdomains :=
          [{ addr := 101, tag := 2, theChannel := { handle := 101 }, theAnalysis := none },
           { addr := 102, tag := 3, theChannel := { handle := 102 }, theAnalysis := none }],
        thePartitioner := some 104, partitionCalls := [] },
    OPS_DOMAIN_PARTITIONER := some 104, OPS_GRAPH_PARTITIONER := some 103,
    OPS_theChannels :=
      some { addr := 100, slots := [none, some { handle := 101 }, some { handle := 102 }] },
    the_static_analysis := some 0, heapNext := 105, heapFreed := [] }

/-- Collaborators for which every cut succeeds with code 0. -/
def cutSucceeds : External :=
  { shadowChannel := fun a _ => { handle := a }, cut := fun _ _ _ _ _ => 0 }

/-- Collaborators for which every cut is rejected with code -1. -/
def cutFails : External :=
  { shadowChannel := fun a _ => { handle := a }, cut := fun _ _ _ _ _ => -1 }

/-- Collaborators whose cut returns the number of subdomains registered with
the domain at the moment `partition` is called. -/
def cutCountsSubdomains : External :=
  { shadowChannel := fun a _ => { handle := a },
    cut := fun d _ _ _ _ => (d.theSubdomains.length : Int) }

/-! ## The `send` and `recv` commands (`_PARALLEL_INTERPRETERS`) -/

/-- Tcl's success status. -/
def TCL_OK : Int := 0

/-- Tcl's failure status. -/
def TCL_ERROR : Int := 1

/-- The terminating byte of a C string. -/
def NUL : Char := Char.ofNat 0

/-- The library function `strlen` on the bytes found at a `char *`. -/
def strlen (buf : List Char) : Nat :=
  (buf.takeWhile (fun c => decide (c ≠ NUL))).length

/-- The bytes found at an `argv[i]`: the characters and the terminator. -/
def cString (s : String) : List Char :=
  s.data ++ [NUL]

/-- The string a `const char *` denotes for Tcl: the bytes before the first
terminator. -/
def stringAt (buf : List Char) : String :=
  String.mk (buf.takeWhile (fun c => decide (c ≠ NUL)))

/-- What one transport operation carries: `MPI_INT`s or `MPI_CHAR`s. -/
inductive Datum where
  | ints (xs : List Int)
  | chars (cs : List Char)
deriving DecidableEq, Repr

/-- A point-to-point message under way. -/
structure Packet where
  source : Int
  dest : Int
  tag : Int
  body : Datum
deriving DecidableEq, Repr

/-- One call into the transport, as made by a process. -/
inductive MpiCall where
  | send (caller : Int) (body : Datum) (dest : Int) (tag : Int)
  | recv (caller : Int) (source : Option Int) (tag : Int)
  | bcastRoot (caller : Int) (body : Datum)
  | bcastRecv (caller : Int) (root : Int)
  | barrier
deriving DecidableEq, Repr

/-- State of `MPI_COMM_WORLD`: the point-to-point messages sent and not yet
received (in arrival order), the broadcast data not yet picked up by each
receiver, and the calls made so far. -/
structure Comm where
  inflight : List Packet
  broadcasts : List (Int × Datum)
  calls : List MpiCall
deriving DecidableEq, Repr

/-- Modelled from the spec: the transport (`MPI_Send`) is not part of the
sources at hand; a send hands the message to an ordered, reliable channel. -/
def MPI_Send (me : Int) (body : Datum) (dest tag : Int) (c : Comm) : Comm :=
  { c with
    inflight := c.inflight ++ [{ source := me, dest := dest, tag := tag, body := body }]
    calls := c.calls ++ [MpiCall.send me body dest tag] }

/-- First element satisfying a test, and the list without it. -/
def takeFirst {α : Type} (p : α → Bool) : List α → Option (α × List α)
  | [] => none
  | x :: xs =>
    if p x then some (x, xs)
    else
      match takeFirst p xs with
      | some r => some (r.1, x :: r.2)
      | none => none

/-- Whether a message under way matches a receive posted by `me`. -/
def matchesRecv (me : Int) (source : Option Int) (tag : Int) (p : Packet) : Bool :=
  decide (p.dest = me) && decide (p.tag = tag) &&
    (match source with
     | some s => decide (p.source = s)
     | none => true)

/-- Modelled from the spec: the transport (`MPI_Recv`) is not part of the
sources at hand; a receive takes the first matching message in arrival order
(`source = none` is `MPI_ANY_SOURCE`) and blocks, which is `none`, while there
is no such message. -/
def MPI_Recv (me : Int) (source : Option Int) (tag : Int) (c : Comm) : Option (Packet × Comm) :=
  match takeFirst (matchesRecv me source tag) c.inflight with
  | some r => some (r.1, { c with inflight := r.2, calls := c.calls ++ [MpiCall.recv me source tag] })
  | none => none

/-- The peers of the root in a world of `np` processes. -/
def peersOf (np root : Int) : List Int :=
  ((List.range np.toNat).map (fun (p : Nat) => (p : Int))).filter (fun p => decide (p ≠ root))

/-- Modelled from the spec: the transport (`MPI_Bcast` called by the root) is
not part of the sources at hand; the datum is delivered to every peer. -/
def MPI_Bcast_root (np me : Int) (body : Datum) (c : Comm) : Comm :=
  { c with
    broadcasts := c.broadcasts ++ (peersOf np me).map (fun p => (p, body))
    calls := c.calls ++ [MpiCall.bcastRoot me body] }

/-- Modelled from the spec: the transport (`MPI_Bcast` called by a process
other than the root) is not part of the sources at hand; it takes the oldest
broadcast datum delivered to `me` and blocks while there is none. -/
def MPI_Bcast_recv (me root : Int) (c : Comm) : Option (Datum × Comm) :=
  match takeFirst (fun (q : Int × Datum) => decide (q.1 = me)) c.broadcasts with
  | some r => some (r.1.2, { c with broadcasts := r.2, calls := c.calls ++ [MpiCall.bcastRecv me root] })
  | none => none

/-- The value a receive of one `MPI_INT` leaves in `msgLength`; a message of
another shape is a transport error. -/
def Datum.asInt : Datum → Option Int
  | Datum.ints [n] => some n
  | _ => none

/-- The bytes a receive of `count` `MPI_CHAR`s leaves in the buffer; a longer
message is a transport error.  Bytes of the buffer beyond those received are
not represented. -/
def Datum.asChars (count : Int) : Datum → Option (List Char)
  | Datum.chars cs => if (cs.length : Int) ≤ count then some cs else none
  | _ => none

/-- The interpreter as the commands see it: its result string and its
variables (most recent assignment first). -/
structure Interp where
  result : String
  vars : List (String × String)
deriving DecidableEq, Repr

/-- Modelled from the spec: `Tcl_SetVar` belongs to the Tcl library; it
assigns the value to the named variable. -/
def Tcl_SetVar (interp : Interp) (varName newValue : String) : Interp :=
  { interp with vars := (varName, newValue) :: interp.vars }

/-- Current value of a variable. -/
def Interp.getVar (interp : Interp) (varName : String) : Option String :=
  interp.vars.lookup varName

/-- The Tcl library function `Tcl_GetInt`: the integer read from a string, or
the error message it leaves in the interpreter result. -/
structure TclLib where
  getInt : String → Except String Int

/-- The object behind `theMachineBroker`. -/
structure MachineBroker where
  pid : Int
  np : Int
deriving DecidableEq, Repr

/-- The method `MachineBroker::getPID`. -/
def MachineBroker.getPID (b : MachineBroker) : Int := b.pid

/-- The method `MachineBroker::getNP`. -/
def MachineBroker.getNP (b : MachineBroker) : Int := b.np

/-- The conversion of an integer value to the 32-bit `int`: reduction modulo
`2^32` into the range from `-2^31` to `2^31 - 1`. -/
def toInt32 (n : Int) : Int :=
  (n + 2147483648) % 4294967296 - 2147483648

/-- The command procedure `opsSend`: returned status, interpreter and
transport afterwards.  Its body is compiled only under
`_PARALLEL_INTERPRETERS`.  `msgLength` is an `int`: `strlen(dataToSend) + 1`
is converted with `toInt32`.  The payload send hands over the first
`msgLength` bytes of the argument, none when `msgLength` is not positive; the
status the transport calls return is not looked at.  Text written to `opserr`
is not represented. -/
def opsSend (cfg : BuildConfig) (tcl : TclLib) (theMachineBroker : MachineBroker)
    (interp : Interp) (comm : Comm) (argv : List String) : Int × Interp × Comm :=
  match cfg with
  | BuildConfig.parallelInterpreters =>
    let argc := argv.length
    if argc < 2 then (TCL_OK, interp, comm)
    else
      let myPID := theMachineBroker.getPID
      let np := theMachineBroker.getNP
      let dataToSend := cString (argv.getD (argc - 1) "")
      let msgLength : Int := toInt32 ((strlen dataToSend : Int) + 1)
      let gMsg := dataToSend
      if argv.getD 1 "" = "-pid" ∧ argc > 3 then
        match tcl.getInt (argv.getD 2 "") with
        | Except.error msg => (TCL_ERROR, { interp with result := msg }, comm)
        | Except.ok otherPID =>
          if otherPID > -1 ∧ otherPID ≠ myPID ∧ otherPID < np then
            let c1 := MPI_Send myPID (Datum.ints [msgLength]) otherPID 0 comm
            let c2 := MPI_Send myPID (Datum.chars (gMsg.take msgLength.toNat)) otherPID 1 c1
            (TCL_OK, interp, c2)
          else (TCL_ERROR, interp, comm)
      else
        if myPID = 0 then
          let c1 := MPI_Bcast_root np 0 (Datum.ints [msgLength]) comm
          let c2 := MPI_Bcast_root np 0 (Datum.chars (gMsg.take msgLength.toNat)) c1
          (TCL_OK, interp, c2)
        else (TCL_ERROR, interp, comm)
  | _ => (TCL_OK, interp, comm)

/-- The three spellings of the wildcard source accepted by `recv -pid`. -/
def isAnySource (s : String) : Bool :=
  decide (s = "ANY") || decide (s = "ANY_SOURCE") || decide (s = "MPI_ANY_SOURCE")

/-- The tail of both branches of `opsRecv`: `if (msgLength > 0)` a buffer is
allocated, filled by `fetch` and stored in the variable. -/
def storePayload (interp : Interp) (varToSet : String) (msgLength : Int)
    (fetch : Comm → Option (Datum × Comm)) (c : Comm) : Option (Int × Interp × Comm) :=
  if msgLength > 0 then
    match fetch c with
    | none => none
    | some r =>
      match r.1.asChars msgLength with
      | none => none
      | some gMsg => some (TCL_OK, Tcl_SetVar interp varToSet (stringAt gMsg), r.2)
  else some (TCL_OK, interp, c)

/-- A point-to-point receive of the payload from `otherPID` with tag 1. -/
def fetchFrom (me otherPID : Int) (c : Comm) : Option (Datum × Comm) :=
  match MPI_Recv me (some otherPID) 1 c with
  | some r => some (r.1.body, r.2)
  | none => none

/-- The command procedure `opsRecv`: returned status, interpreter and
transport afterwards, or `none` when the command never returns (it blocks for
ever or the transport aborts).  Its body is compiled only under
`_PARALLEL_INTERPRETERS`.  Text written to `opserr` is not represented. -/
def opsRecv (cfg : BuildConfig) (tcl : TclLib) (theMachineBroker : MachineBroker)
    (interp : Interp) (comm : Comm) (argv : List String) : Option (Int × Interp × Comm) :=
  match cfg with
  | BuildConfig.parallelInterpreters =>
    let argc := argv.length
    if argc < 2 then some (TCL_OK, interp, comm)
    else
      let myPID := theMachineBroker.getPID
      let np := theMachineBroker.getNP
      let varToSet := argv.getD (argc - 1) ""
      if argv.getD 1 "" = "-pid" ∧ argc > 3 then
        let fromAny := isAnySource (argv.getD 2 "")
        let parsed : Except String Int :=
          if fromAny then Except.ok 0 else tcl.getInt (argv.getD 2 "")
        match parsed with
        | Except.error msg => some (TCL_ERROR, { interp with result := msg }, comm)
        | Except.ok otherPID =>
          if otherPID > -1 ∧ otherPID < np then
            if fromAny = false then
              if myPID ≠ otherPID then
                match MPI_Recv myPID (some otherPID) 0 comm with
                | none => none
                | some r =>
                  match r.1.body.asInt with
                  | none => none
                  | some msgLength =>
                    storePayload interp varToSet msgLength (fetchFrom myPID otherPID) r.2
              else some (TCL_ERROR, interp, comm)
            else
              match MPI_Recv myPID none 0 comm with
              | none => none
              | some r =>
                match r.1.body.asInt with
                | none => none
                | some msgLength =>
                  storePayload interp varToSet msgLength (fetchFrom myPID r.1.source) r.2
          else some (TCL_ERROR, interp, comm)
      else
        if myPID ≠ 0 then
          match MPI_Bcast_recv myPID 0 comm with
          | none => none
          | some r =>
            match r.1.asInt with
            | none => none
            | some msgLength =>
              storePayload interp varToSet msgLength (MPI_Bcast_recv myPID 0) r.2
        else some (TCL_ERROR, interp, comm)
  | _ => some (TCL_OK, interp, comm)

/-- The bytes of the C string an argument denotes, terminator included: the
characters before the first `NUL`, then `NUL`. -/
def wireBytes (s : String) : List Char :=
  s.data.takeWhile (fun c => decide (c ≠ NUL)) ++ [NUL]

/-- The value `opsSend` gives `msgLength` for the argument `s`. -/
def msgLengthOf (s : String) : Int :=
  toInt32 ((strlen (cString s) : Int) + 1)

/-- The bytes `opsSend` hands to the payload send for the argument `s`: the
first `msgLength` bytes found at the argument. -/
def sentBytes (s : String) : List Char :=
  (cString s).take (msgLengthOf s).toNat

/-- A Tcl library reading the decimal numerals `0` to `3`. -/
def smallTcl : TclLib :=
  { getInt := fun s =>
      if s = "0" then Except.ok 0
      else if s = "1" then Except.ok 1
      else if s = "2" then Except.ok 2
      else if s = "3" then Except.ok 3
      else Except.error "expected integer" }

/-- An idle transport. -/
def quietComm : Comm :=
  { inflight := [], broadcasts := [], calls := [] }

/-- A transport holding one complete message for process 0: the header and
the payload `x`, both sent by `sender`. -/
def commWithMessageFrom (sender : Int) : Comm :=
  { inflight :=
      [{ source := sender, dest := 0, tag := 0, body := Datum.ints [2] },
       { source := sender, dest := 0, tag := 1, body := Datum.chars ['x', NUL] }],
    broadcasts := [], calls := [] }

/-- An interpreter with no variables. -/
def emptyInterp : Interp :=
  { result := "", vars := [] }

/-! ## The `barrier` and `partition` commands -/

/-- Modelled from the spec: the transport (`MPI_Barrier`) is not part of the
sources at hand; the call enters the barrier over all processes of the
communicator and comes back with the status the transport reports. -/
def MPI_Barrier (status : Int) (c : Comm) : Int × Comm :=
  (status, { c with calls := c.calls ++ [MpiCall.barrier] })

/-- The command procedure `opsBarrier`: returned status and transport
afterwards.  `status` is what the transport would report for a barrier. -/
def opsBarrier (cfg : BuildConfig) (status : Int) (comm : Comm) : Int × Comm :=
  match cfg with
  | BuildConfig.parallelInterpreters => MPI_Barrier status comm
  | _ => (TCL_OK, comm)

/-- The command procedure `opsPartition`: returned status, interpreter and
globals afterwards, or `none` when `partitionModel` does not return.  The
local `eleTag` is not initialised: `junk` is the value it happens to hold
when `Tcl_GetInt` is not called or fails. -/
def opsPartition (cfg : BuildConfig) (tcl : TclLib) (ext : External) (junk : Int)
    (interp : Interp) (g : Globals) (argv : List String) : Option (Int × Interp × Globals) :=
  match cfg with
  | BuildConfig.parallelProcessing =>
    let argc := argv.length
    let parsed : Int × Interp :=
      if argc = 2 then
        match tcl.getInt (argv.getD 1 "") with
        | Except.ok n => (n, interp)
        | Except.error msg => (junk, { interp with result := msg })
      else (junk, interp)
    match partitionModel ext g parsed.1 with
    | none => none
    | some r => some (TCL_OK, parsed.2, r.2)
  | _ => some (TCL_OK, interp, g)

/-! ## `CrisfieldTransform` (`SRC/coordTransformation/Frame/Orient/CrisfieldTransform.h`)

Scalars are taken in an arbitrary field `K` (exact arithmetic). -/

/-- A `Vector3D`: three scalars, indexed from 0. -/
abbrev Vector3D (K : Type) := Fin 3 → K

/-- A `Matrix3D`: `m i j` is the C++ `m(i,j)`. -/
abbrev Matrix3D (K : Type) := Matrix (Fin 3) (Fin 3) K

/-- A `Versor`: vector part and scalar part of a quaternion. -/
structure Versor (K : Type) where
  vector : Vector3D K
  scalar : K

/-- The conversions of `Rotations.hpp`, which is not part of the sources at
hand; they are used as given. -/
structure Rotations (K : Type) where
  MatrixFromVersor : Versor K → Matrix3D K
  VersorFromMatrix : Matrix3D K → Versor K
  CayleyFromVersor : Versor K → Vector3D K
  CaySO3 : Vector3D K → Matrix3D K

/-- The data members of `CrisfieldTransform`. -/
structure CrisfieldTransform (K : Type) where
  Qbar : Versor K
  e : Matrix3D K

/-- The method `Vector3D::dot`. -/
def Vector3D.dot {K : Type} [Field K] (u v : Vector3D K) : K :=
  u 0 * v 0 + u 1 * v 1 + u 2 * v 2

/-- The operator `v *= s` of `Vector3D`. -/
def Vector3D.scale {K : Type} [Field K] (v : Vector3D K) (s : K) : Vector3D K :=
  fun i => v i * s

/-- Modelled from the spec: `Vector3D::addVector` is declared in a header
that is not part of the sources at hand; `v.addVector(a, w, b)` replaces `v`
by `a*v + b*w`, which is what makes lines 73-74 compute the expression in the
comment at line 63. -/
def Vector3D.addVector {K : Type} [Field K] (v : Vector3D K) (thisFact : K) (other : Vector3D K)
    (otherFact : K) : Vector3D K :=
  fun i => thisFact * v i + otherFact * other i

/-- Modelled from the spec: `Triad` is declared in a header that is not part
of the sources at hand; `Triad{R}[n]`, for `n` = 1, 2, 3, is the `n`-th column
of `R`. -/
def Triad {K : Type} (R : Matrix3D K) (n : Nat) : Vector3D K :=
  fun i => R i (Fin.ofNat (n - 1))

/-- The loops at lines 31-36: `dRgamma(i,j)` starts at 0 and accumulates
`RJ(i,k) * RI(j,k)` for `k` = 0, 1, 2. -/
def relativeRotation {K : Type} [Field K] (RI RJ : Matrix3D K) : Matrix3D K :=
  Matrix.of (fun i j => ((0 + RJ i 0 * RI j 0) + RJ i 1 * RI j 1) + RJ i 2 * RI j 2)

/-- The method `CrisfieldTransform::getRotation`. -/
def CrisfieldTransform.getRotation {K : Type} (self : CrisfieldTransform K) : Matrix3D K :=
  self.e

/-- The method `CrisfieldTransform::getReference`. -/
def CrisfieldTransform.getReference {K : Type} (self : CrisfieldTransform K) : Versor K :=
  self.Qbar

/-- The method `CrisfieldTransform::update`: returned code and object
afterwards. -/
def CrisfieldTransform.update {K : Type} [Field K] (rot : Rotations K)
    (_self : CrisfieldTransform K) (qI qJ : Versor K) (e1 : Vector3D K) :
    Int × CrisfieldTransform K :=
  let RI := rot.MatrixFromVersor qI
  let RJ := rot.MatrixFromVersor qJ
  let dRgamma0 := relativeRotation RI RJ
  let gammaw := (rot.CayleyFromVersor (rot.VersorFromMatrix dRgamma0)).scale (1 / 2)
  let dRgamma := rot.CaySO3 gammaw
  let Rbar : Matrix3D K := dRgamma * rot.MatrixFromVersor qI
  let Qbar := rot.VersorFromMatrix Rbar
  let r := Triad (rot.MatrixFromVersor Qbar)
  let r1 := r 1
  let r2 := r 2
  let r3 := r 3
  let tmp : Vector3D K := fun i => e1 i + r1 i
  let e2 := (tmp.scale (1 / 2 * r2.dot e1)).addVector (-1) r2 1
  let e3 := (tmp.scale (r3.dot e1 * (1 / 2))).addVector (-1) r3 1
  let e : Matrix3D K :=
    Matrix.of (fun k j => if j = 0 then e1 k else if j = 1 then e2 k else e3 k)
  (0, { Qbar := Qbar, e := e })

/-! ## `ParticleFiniteStrain` (`include/particles/particle_finite_strain.tcc`) -/

/-- The data members of the particle that the strain updates touch. -/
structure ParticleFiniteStrain (K : Type) where
  volume_ : K
  mass_density_ : K
  deformation_gradient_increment_ : Matrix3D K

/-- The two overloads of `compute_deformation_gradient_increment` of the base
class, which is not part of the sources at hand: with a time step
(`withDt`) and without (`withoutDt`).  They read the particle. -/
structure ParticleBase (K : Type) where
  withDt : ParticleFiniteStrain K → K → Matrix3D K
  withoutDt : ParticleFiniteStrain K → Matrix3D K

/-- The method `ParticleFiniteStrain::compute_strain`. -/
def compute_strain {K : Type} [Field K] (base : ParticleBase K) (p : ParticleFiniteStrain K)
    (dt : K) : ParticleFiniteStrain K :=
  let p1 : ParticleFiniteStrain K :=
    { p with deformation_gradient_increment_ := base.withDt p dt }
  let deltaJ := p1.deformation_gradient_increment_.det
  { p1 with volume_ := p1.volume_ * deltaJ, mass_density_ := p1.mass_density_ / deltaJ }

/-- The method `ParticleFiniteStrain::compute_strain_volume_newmark`. -/
def compute_strain_volume_newmark {K : Type} [Field K] (base : ParticleBase K)
    (p : ParticleFiniteStrain K) : ParticleFiniteStrain K :=
  let deltaJ0 := p.deformation_gradient_increment_.det
  let p1 : ParticleFiniteStrain K :=
    { p with volume_ := p.volume_ / deltaJ0, mass_density_ := p.mass_density_ * deltaJ0 }
  let p2 : ParticleFiniteStrain K :=
    { p1 with deformation_gradient_increment_ := base.withoutDt p1 }
  let deltaJ := p2.deformation_gradient_increment_.det
  { p2 with volume_ := p2.volume_ * deltaJ, mass_density_ := p2.mass_density_ / deltaJ }

/-- A particle over the rationals whose stored increment has determinant 2. -/
def stretchedParticle : ParticleFiniteStrain ℚ :=
  { volume_ := 2, mass_density_ := 3,
    deformation_gradient_increment_ := Matrix.diagonal ![2, 1, 1] }

/-- A base class whose increments read the time step and the particle: the
determinant is `1 + dt` with a time step and `volume_ + 4` without. -/
def growingBase : ParticleBase ℚ :=
  { withDt := fun _ dt => Matrix.diagonal ![1 + dt, 1, 1],
    withoutDt := fun q => Matrix.diagonal ![q.volume_ + 4, 1, 1] }

/-! ## Facts about the subdomain loop -/

theorem createSubdomains_frame (ext : External) (is : List Nat) :
    ∀ g : Globals,
      (createSubdomains ext is g).OPS_NUM_SUBDOMAINS = g.OPS_NUM_SUBDOMAINS ∧
      (createSubdomains ext is g).OPS_PARTITIONED = g.OPS_PARTITIONED ∧
      (createSubdomains ext is g).OPS_USING_MAIN_DOMAIN = g.OPS_USING_MAIN_DOMAIN ∧
      (createSubdomains ext is g).OPS_MAIN_DOMAIN_PARTITION_ID = g.OPS_MAIN_DOMAIN_PARTITION_ID ∧
      (createSubdomains ext is g).OPS_DOMAIN_PARTITIONER = g.OPS_DOMAIN_PARTITIONER ∧
      (createSubdomains ext is g).OPS_GRAPH_PARTITIONER = g.OPS_GRAPH_PARTITIONER ∧
      (createSubdomains ext is g).the_static_analysis = g.the_static_analysis ∧
      (createSubdomains ext is g).heapFreed = g.heapFreed ∧
      (createSubdomains ext is g).theDomain.thePartitioner = g.theDomain.thePartitioner ∧
      (createSubdomains ext is g).theDomain.partitionCalls = g.theDomain.partitionCalls := by
  induction is with
  | nil => intro g; simp [createSubdomains]
  | cons i rest ih =>
    intro g
    by_cases h : (i : Int) ≠ g.OPS_MAIN_DOMAIN_PARTITION_ID
    · simp only [createSubdomains, if_pos h]
      have := ih { g with
          heapNext := g.heapNext + 1
          theDomain := g.theDomain.addSubdomain
            { addr := g.heapNext, tag := (i : Int),
              theChannel := ext.shadowChannel g.heapNext (i : Int), theAnalysis := none }
          OPS_theChannels := storeChannel g.OPS_theChannels i (ext.shadowChannel g.heapNext (i : Int)) }
      simpa [PartitionedDomain.addSubdomain] using this
    · simp only [createSubdomains, if_neg h]
      exact ih g

theorem createSubdomains_spec (ext : External) (is : List Nat) :
    ∀ (g : Globals) (t : ChannelTable), g.OPS_theChannels = some t →
      (∀ i ∈ is, 1 ≤ i) → is.Nodup →
      ∃ (news : List ShadowSubdomain) (slots : List (Option Channel)),
        (createSubdomains ext is g).theDomain.theSubdomains = g.theDomain.theSubdomains ++ news ∧
        (createSubdomains ext is g).OPS_theChannels = some { addr := t.addr, slots := slots } ∧
        slots.length = t.slots.length ∧
        news.map (fun s => s.tag) =
          List.map (fun (i : Nat) => (i : Int))
            (List.filter (fun (i : Nat) => decide ((i : Int) ≠ g.OPS_MAIN_DOMAIN_PARTITION_ID)) is) ∧
        (∀ s ∈ news, s.theAnalysis = none) ∧
        (∀ i ∈ is, (i : Int) ≠ g.OPS_MAIN_DOMAIN_PARTITION_ID → i ≤ t.slots.length →
          ∃ s ∈ news, s.tag = (i : Int) ∧ slots[i - 1]? = some (some s.theChannel)) ∧
        (∀ j, (∀ i ∈ is, i - 1 ≠ j) → slots[j]? = t.slots[j]?) := by
  induction is with
  | nil =>
    intro g t ht _ _
    exact ⟨[], t.slots, by simp [createSubdomains], by simp [createSubdomains, ht], rfl,
      by simp, by simp, by simp, by simp⟩
  | cons i rest ih =>
    intro g t ht hpos hnd
    have hi1 : 1 ≤ i := hpos i (List.mem_cons_self _ _)
    have hrest : ∀ k ∈ rest, 1 ≤ k := fun k hk => hpos k (List.mem_cons_of_mem _ hk)
    have hnd2 : rest.Nodup := (List.nodup_cons.mp hnd).2
    have hni : i ∉ rest := (List.nodup_cons.mp hnd).1
    by_cases h : (i : Int) ≠ g.OPS_MAIN_DOMAIN_PARTITION_ID
    · obtain ⟨news, slots, h1, h2, h3, h4, h5, h6, h7⟩ :=
        ih { g with
          heapNext := g.heapNext + 1
          theDomain := g.theDomain.addSubdomain
            { addr := g.heapNext, tag := (i : Int),
              theChannel := ext.shadowChannel g.heapNext (i : Int), theAnalysis := none }
          OPS_theChannels := storeChannel g.OPS_theChannels i (ext.shadowChannel g.heapNext (i : Int)) }
          { t with slots := t.slots.set (i - 1) (some (ext.shadowChannel g.heapNext (i : Int))) }
          (by simp [storeChannel, ht]) hrest hnd2
      refine ⟨ShadowSubdomain.mk g.heapNext (i : Int) (ext.shadowChannel g.heapNext (i : Int)) none
              :: news, slots, ?_, ?_, ?_, ?_, ?_, ?_, ?_⟩
      · simp only [createSubdomains, if_pos h]
        rw [h1]; simp [PartitionedDomain.addSubdomain]
      · simp only [createSubdomains, if_pos h]
        rw [h2]
      · rw [h3]; simp
      · simp only [List.map_cons, List.filter_cons, decide_eq_true_eq, if_pos h]
        simpa using h4
      · intro s hs
        rcases List.mem_cons.mp hs with rfl | hs
        · rfl
        · exact h5 s hs
      · intro k hk hkm hkl
        rcases List.mem_cons.mp hk with rfl | hk
        · refine ⟨_, List.mem_cons_self _ _, rfl, ?_⟩
          have hj := h7 (k - 1) (fun i' hi' hEq => hni (by
            have := hrest i' hi'
            have : i' = k := by omega
            exact this ▸ hi'))
          rw [hj]
          simp only
          rw [List.getElem?_set_self]
          omega
        · obtain ⟨s, hs, hst, hsl⟩ := h6 k hk hkm (by simpa using hkl)
          exact ⟨s, List.mem_cons_of_mem _ hs, hst, hsl⟩
      · intro j hj
        rw [h7 j (fun i' hi' => hj i' (List.mem_cons_of_mem _ hi'))]
        simp only
        rw [List.getElem?_set_ne]
        exact hj i (List.mem_cons_self _ _)
    · obtain ⟨news, slots, h1, h2, h3, h4, h5, h6, h7⟩ := ih g t ht hrest hnd2
      refine ⟨news, slots, ?_, ?_, h3, ?_, h5, ?_, ?_⟩
      · simp only [createSubdomains, if_neg h]; exact h1
      · simp only [createSubdomains, if_neg h]; exact h2
      · simp only [List.filter_cons, decide_eq_true_eq, if_neg h]
        exact h4
      · intro k hk hkm hkl
        rcases List.mem_cons.mp hk with rfl | hk
        · exact absurd hkm h
        · exact h6 k hk hkm hkl
      · intro j hj
        exact h7 j (fun i' hi' => hj i' (List.mem_cons_of_mem _ hi'))

theorem bindAnalyses_map (kind : AnalysisKind) (l : List ShadowSubdomain) :
    ∀ h : Nat, (bindAnalyses kind l h).1.map (fun s => (s.addr, s.tag, s.theChannel)) =
      l.map (fun s => (s.addr, s.tag, s.theChannel)) := by
  induction l with
  | nil => intro h; simp [bindAnalyses]
  | cons a rest ih => intro h; simp [bindAnalyses, ih (h + 1)]

theorem bindAnalyses_length (kind : AnalysisKind) (l : List ShadowSubdomain) (h : Nat) :
    (bindAnalyses kind l h).1.length = l.length := by
  have := congrArg List.length (bindAnalyses_map kind l h)
  simpa using this

theorem range_one_facts (n : Nat) :
    (∀ i ∈ List.range' 1 n, 1 ≤ i) ∧ (List.range' 1 n).Nodup ∧
      (∀ i, i ∈ List.range' 1 n ↔ 1 ≤ i ∧ i ≤ n) := by
  refine ⟨?_, List.nodup_range' 1 n, ?_⟩
  · intro i hi
    have := List.mem_range'_1.mp hi
    omega
  · intro i
    rw [List.mem_range'_1]
    omega

/-- What the preparation of a cut leaves behind, for a non-negative number
of subdomains. -/
theorem prepareCut_spec (ext : External) (g : Globals) (hN : 0 ≤ g.OPS_NUM_SUBDOMAINS) :
    ∃ (pre : Globals) (news : List ShadowSubdomain) (slots : List (Option Channel)),
      prepareCut ext g = some pre ∧
      pre.theDomain.theSubdomains = g.theDomain.theSubdomains ++ news ∧
      pre.OPS_theChannels = some { addr := g.heapNext, slots := slots } ∧
      slots.length = g.OPS_NUM_SUBDOMAINS.toNat ∧
      news.map (fun s => s.tag) =
        List.map (fun (i : Nat) => (i : Int))
          (List.filter (fun (i : Nat) => decide ((i : Int) ≠ g.OPS_MAIN_DOMAIN_PARTITION_ID))
            (List.range' 1 g.OPS_NUM_SUBDOMAINS.toNat)) ∧
      (∀ s ∈ news, s.theAnalysis = none) ∧
      (∀ i : Nat, 1 ≤ i → (i : Int) ≤ g.OPS_NUM_SUBDOMAINS →
        (i : Int) ≠ g.OPS_MAIN_DOMAIN_PARTITION_ID →
        ∃ s ∈ news, s.tag = (i : Int) ∧ slots[i - 1]? = some (some s.theChannel)) ∧
      (∀ j, (∀ i : Nat, 1 ≤ i → (i : Int) ≤ g.OPS_NUM_SUBDOMAINS → i - 1 ≠ j) →
        slots[j]? = (List.replicate g.OPS_NUM_SUBDOMAINS.toNat (none : Option Channel))[j]?) ∧
      pre.OPS_NUM_SUBDOMAINS = g.OPS_NUM_SUBDOMAINS ∧
      pre.OPS_PARTITIONED = g.OPS_PARTITIONED ∧
      pre.OPS_USING_MAIN_DOMAIN = g.OPS_USING_MAIN_DOMAIN ∧
      pre.OPS_MAIN_DOMAIN_PARTITION_ID = g.OPS_MAIN_DOMAIN_PARTITION_ID ∧
      pre.the_static_analysis = g.the_static_analysis ∧
      pre.heapFreed = (releaseChannels g).heapFreed ∧
      pre.theDomain.partitionCalls = g.theDomain.partitionCalls := by
  have hrel : (releaseChannels g).OPS_NUM_SUBDOMAINS = g.OPS_NUM_SUBDOMAINS ∧
      (releaseChannels g).OPS_PARTITIONED = g.OPS_PARTITIONED ∧
      (releaseChannels g).OPS_USING_MAIN_DOMAIN = g.OPS_USING_MAIN_DOMAIN ∧
      (releaseChannels g).OPS_MAIN_DOMAIN_PARTITION_ID = g.OPS_MAIN_DOMAIN_PARTITION_ID ∧
      (releaseChannels g).the_static_analysis = g.the_static_analysis ∧
      (releaseChannels g).heapNext = g.heapNext ∧
      (releaseChannels g).theDomain = g.theDomain := by
    unfold releaseChannels
    cases g.OPS_theChannels <;> simp
  obtain ⟨r1, r2, r3, r4, r5, r6, r7⟩ := hrel
  have halloc : ∃ g2 : Globals, allocateChannels (releaseChannels g) = some g2 ∧
      g2.OPS_theChannels =
        some (ChannelTable.mk g.heapNext (List.replicate g.OPS_NUM_SUBDOMAINS.toNat none)) ∧
      g2.OPS_NUM_SUBDOMAINS = g.OPS_NUM_SUBDOMAINS ∧
      g2.OPS_PARTITIONED = g.OPS_PARTITIONED ∧
      g2.OPS_USING_MAIN_DOMAIN = g.OPS_USING_MAIN_DOMAIN ∧
      g2.OPS_MAIN_DOMAIN_PARTITION_ID = g.OPS_MAIN_DOMAIN_PARTITION_ID ∧
      g2.the_static_analysis = g.the_static_analysis ∧
      g2.heapFreed = (releaseChannels g).heapFreed ∧
      g2.theDomain = g.theDomain := by
    have hnot : ¬ (releaseChannels g).OPS_NUM_SUBDOMAINS < 0 := by
      rw [r1]; exact not_lt.mpr hN
    unfold allocateChannels
    rw [if_neg hnot]
    exact ⟨_, rfl, by simp [r1, r2, r3, r4, r5, r6, r7]⟩
  obtain ⟨g2, a0, a1, a2, a3, a4, a5, a6, a7, a8⟩ := halloc
  obtain ⟨p1, p2, p3⟩ := range_one_facts g.OPS_NUM_SUBDOMAINS.toNat
  obtain ⟨news, slots, h1, h2, h3, h4, h5, h6, h7⟩ :=
    createSubdomains_spec ext (List.range' 1 g.OPS_NUM_SUBDOMAINS.toNat) g2 _ a1 p1 p2
  obtain ⟨f1, f2, f3, f4, f5, f6, f7, f8, f9, f10⟩ :=
    createSubdomains_frame ext (List.range' 1 g.OPS_NUM_SUBDOMAINS.toNat) g2
  have hens : ∀ x : Globals,
      (ensurePartitioner x).theDomain.theSubdomains = x.theDomain.theSubdomains ∧
      (ensurePartitioner x).OPS_theChannels = x.OPS_theChannels ∧
      (ensurePartitioner x).OPS_NUM_SUBDOMAINS = x.OPS_NUM_SUBDOMAINS ∧
      (ensurePartitioner x).OPS_PARTITIONED = x.OPS_PARTITIONED ∧
      (ensurePartitioner x).OPS_USING_MAIN_DOMAIN = x.OPS_USING_MAIN_DOMAIN ∧
      (ensurePartitioner x).OPS_MAIN_DOMAIN_PARTITION_ID = x.OPS_MAIN_DOMAIN_PARTITION_ID ∧
      (ensurePartitioner x).the_static_analysis = x.the_static_analysis ∧
      (ensurePartitioner x).heapFreed = x.heapFreed ∧
      (ensurePartitioner x).theDomain.partitionCalls = x.theDomain.partitionCalls := by
    intro x
    unfold ensurePartitioner
    cases x.OPS_DOMAIN_PARTITIONER <;> simp
  obtain ⟨e1, e2, e3, e4, e5, e6, e7, e8, e9⟩ :=
    hens (createSubdomains ext (List.range' 1 g.OPS_NUM_SUBDOMAINS.toNat) g2)
  simp only [a5, a8] at h1 h4 h6
  simp only [List.length_replicate] at h3 h6
  refine ⟨ensurePartitioner (createSubdomains ext (List.range' 1 g.OPS_NUM_SUBDOMAINS.toNat) g2),
    news, slots, ?_, ?_, ?_, h3, h4, h5, ?_, ?_, ?_, ?_, ?_, ?_, ?_, ?_, ?_⟩
  · unfold prepareCut
    rw [a0]
    simp only [a2]
  · rw [e1, h1]
  · rw [e2, h2]
  · intro i hi1 hiN him
    have hmem : i ∈ List.range' 1 g.OPS_NUM_SUBDOMAINS.toNat := (p3 i).mpr ⟨hi1, by omega⟩
    exact h6 i hmem him (by omega)
  · intro j hj
    exact h7 j (fun i hi => hj i ((p3 i).mp hi).1 (by have := ((p3 i).mp hi).2; omega))
  · rw [e3, f1, a2]
  · rw [e4, f2, a3]
  · rw [e5, f3, a4]
  · rw [e6, f4, a5]
  · rw [e7, f7, a6]
  · rw [e8, f8, a7]
  · rw [e9, f10, a8]

theorem prepareCut_negative (ext : External) (g : Globals) (hN : g.OPS_NUM_SUBDOMAINS < 0) :
    prepareCut ext g = none := by
  have h : (releaseChannels g).OPS_NUM_SUBDOMAINS = g.OPS_NUM_SUBDOMAINS := by
    unfold releaseChannels
    cases g.OPS_theChannels <;> rfl
  unfold prepareCut allocateChannels
  rw [if_pos (by rw [h]; exact hN)]

/-- How `partitionModel` continues once the cut has been prepared. -/
theorem partitionModel_of_prepare (ext : External) (g pre : Globals) (eleTag : Int)
    (hflag : g.OPS_PARTITIONED = false) (hpre : prepareCut ext g = some pre) :
    ∃ g' : Globals,
      partitionModel ext g eleTag =
        some (ext.cut pre.theDomain pre.OPS_NUM_SUBDOMAINS pre.OPS_USING_MAIN_DOMAIN
          pre.OPS_MAIN_DOMAIN_PARTITION_ID eleTag, g') ∧
      g'.OPS_theChannels = pre.OPS_theChannels ∧
      g'.theDomain.theSubdomains.map (fun s => (s.addr, s.tag, s.theChannel)) =
        pre.theDomain.theSubdomains.map (fun s => (s.addr, s.tag, s.theChannel)) ∧
      g'.heapFreed = pre.heapFreed ∧
      g'.OPS_NUM_SUBDOMAINS = pre.OPS_NUM_SUBDOMAINS ∧
      g'.OPS_USING_MAIN_DOMAIN = pre.OPS_USING_MAIN_DOMAIN ∧
      g'.OPS_MAIN_DOMAIN_PARTITION_ID = pre.OPS_MAIN_DOMAIN_PARTITION_ID ∧
      (ext.cut pre.theDomain pre.OPS_NUM_SUBDOMAINS pre.OPS_USING_MAIN_DOMAIN
          pre.OPS_MAIN_DOMAIN_PARTITION_ID eleTag < 0 →
        g'.OPS_PARTITIONED = false ∧
        g'.theDomain.theSubdomains = pre.theDomain.theSubdomains ∧
        g'.heapNext = pre.heapNext) ∧
      (0 ≤ ext.cut pre.theDomain pre.OPS_NUM_SUBDOMAINS pre.OPS_USING_MAIN_DOMAIN
          pre.OPS_MAIN_DOMAIN_PARTITION_ID eleTag →
        g'.OPS_PARTITIONED = true) := by
  have hpf : pre.OPS_PARTITIONED = false := by
    by_cases hN : g.OPS_NUM_SUBDOMAINS < 0
    · rw [prepareCut_negative ext g hN] at hpre
      cases hpre
    · obtain ⟨pre2, _, _, e, _, _, _, _, _, _, _, _, hf, _⟩ :=
        prepareCut_spec ext g (not_lt.mp hN)
      rw [hpre] at e
      cases e
      rw [hf, hflag]
  unfold partitionModel
  rw [if_neg (by rw [hflag]; simp), hpre]
  by_cases hr : ext.cut pre.theDomain pre.OPS_NUM_SUBDOMAINS pre.OPS_USING_MAIN_DOMAIN
      pre.OPS_MAIN_DOMAIN_PARTITION_ID eleTag < 0
  · simp only [if_pos hr]
    refine ⟨_, rfl, rfl, rfl, rfl, rfl, rfl, rfl, fun _ => ⟨hpf, rfl, rfl⟩, fun h => ?_⟩
    omega
  · simp only [if_neg hr]
    refine ⟨_, rfl, rfl, ?_, rfl, rfl, rfl, rfl, fun h => absurd h hr, fun _ => rfl⟩
    exact bindAnalyses_map _ _ _

theorem newTags_count (m : Int) (n : Nat) (i : Int) :
    (List.map (fun (k : Nat) => (k : Int))
      (List.filter (fun (k : Nat) => decide ((k : Int) ≠ m)) (List.range' 1 n))).count i =
      if 1 ≤ i ∧ i ≤ (n : Int) ∧ i ≠ m then 1 else 0 := by
  have hnd : (List.map (fun (k : Nat) => (k : Int))
      (List.filter (fun (k : Nat) => decide ((k : Int) ≠ m)) (List.range' 1 n))).Nodup :=
    List.Nodup.map (fun a b hab => by simpa using hab)
      (List.Nodup.filter _ (List.nodup_range' 1 n))
  rw [List.count_eq_of_nodup hnd]
  have hiff : i ∈ List.map (fun (k : Nat) => (k : Int))
      (List.filter (fun (k : Nat) => decide ((k : Int) ≠ m)) (List.range' 1 n)) ↔
      (1 ≤ i ∧ i ≤ (n : Int) ∧ i ≠ m) := by
    simp only [List.mem_map, List.mem_filter, List.mem_range'_1, decide_eq_true_eq]
    constructor
    · rintro ⟨k, ⟨⟨hk1, hk2⟩, hkm⟩, rfl⟩
      exact ⟨by omega, by omega, hkm⟩
    · rintro ⟨h1, h2, h3⟩
      refine ⟨i.toNat, ⟨⟨by omega, by omega⟩, ?_⟩, by omega⟩
      rw [Int.toNat_of_nonneg (by omega)]
      exact h3
  by_cases h : 1 ≤ i ∧ i ≤ (n : Int) ∧ i ≠ m
  · rw [if_pos (hiff.mpr h), if_pos h]
  · rw [if_neg (fun hh => h (hiff.mp hh)), if_neg h]

theorem createSubdomains_heapFreed (ext : External) (is : List Nat) (f : List Nat) :
    ∀ g : Globals, createSubdomains ext is { g with heapFreed := f } =
      { createSubdomains ext is g with heapFreed := f } := by
  induction is with
  | nil => intro g; rfl
  | cons i rest ih =>
    intro g
    by_cases h : (i : Int) ≠ g.OPS_MAIN_DOMAIN_PARTITION_ID
    · simp only [createSubdomains, if_pos h]
      exact ih { g with
        heapNext := g.heapNext + 1
        theDomain := g.theDomain.addSubdomain
          { addr := g.heapNext, tag := (i : Int),
            theChannel := ext.shadowChannel g.heapNext (i : Int), theAnalysis := none }
        OPS_theChannels := storeChannel g.OPS_theChannels i (ext.shadowChannel g.heapNext (i : Int)) }
    · simp only [createSubdomains, if_neg h]
      exact ih g

/-- The channel table a prepared cut holds does not depend on the table that
was in place before. -/
theorem prepareCut_table_independent (ext : External) (g : Globals)
    (old : Option ChannelTable) :
    (prepareCut ext { g with OPS_theChannels := old }).map (fun q => q.OPS_theChannels) =
      (prepareCut ext g).map (fun q => q.OPS_theChannels) := by
  have key : ∀ (x : Globals) (f : List Nat),
      (ensurePartitioner (createSubdomains ext (List.range' 1 x.OPS_NUM_SUBDOMAINS.toNat)
        { x with heapFreed := f })).OPS_theChannels =
      (ensurePartitioner (createSubdomains ext (List.range' 1 x.OPS_NUM_SUBDOMAINS.toNat)
        x)).OPS_theChannels := by
    intro x f
    rw [createSubdomains_heapFreed]
    unfold ensurePartitioner
    cases (createSubdomains ext (List.range' 1 x.OPS_NUM_SUBDOMAINS.toNat) x).OPS_DOMAIN_PARTITIONER <;>
      rfl
  by_cases hN : g.OPS_NUM_SUBDOMAINS < 0
  · rw [prepareCut_negative ext g hN,
      prepareCut_negative ext { g with OPS_theChannels := old } hN]
  · have base : ∀ t : Option ChannelTable,
        (prepareCut ext { g with OPS_theChannels := t }).map (fun q => q.OPS_theChannels) =
          some (ensurePartitioner (createSubdomains ext
            (List.range' 1 g.OPS_NUM_SUBDOMAINS.toNat)
            { g with
              OPS_theChannels :=
                some (ChannelTable.mk g.heapNext
                  (List.replicate g.OPS_NUM_SUBDOMAINS.toNat none))
              heapNext := g.heapNext + 1 })).OPS_theChannels := by
      intro t
      cases t with
      | none =>
        simp only [prepareCut, releaseChannels, allocateChannels, if_neg hN, Option.map_some']
      | some tbl =>
        simp only [prepareCut, releaseChannels, allocateChannels, if_neg hN, Option.map_some']
        exact congrArg some (key
          { g with
            OPS_theChannels :=
              some (ChannelTable.mk g.heapNext
                (List.replicate g.OPS_NUM_SUBDOMAINS.toNat none))
            heapNext := g.heapNext + 1 } (tbl.addr :: g.heapFreed))
    rw [base old]
    have := base g.OPS_theChannels
    rw [← this]

/-- C1: when `OPS_PARTITIONED` is already true, `partitionModel` returns 0 and
the whole global state afterwards is the state before: the flag, the channel
table, the registered subdomains, the partitioner pointers, the heap
bookkeeping (nothing allocated, nothing freed) and the record of `partition`
calls on the domain (none added). -/
theorem partitionModel_noop_when_partitioned (ext : External) (g : Globals) (eleTag : Int)
    (h : g.OPS_PARTITIONED = true) :
    partitionModel ext g eleTag = some (0, g) := by
  unfold partitionModel
  rw [if_pos h]

theorem partitionModel_noop_when_partitioned_witness :
    partitionedGlobals.OPS_PARTITIONED = true ∧
      partitionModel cutFails partitionedGlobals 7 = some (0, partitionedGlobals) :=
  ⟨rfl, partitionModel_noop_when_partitioned cutFails partitionedGlobals 7 rfl⟩

/-- C2, as stated, fails: from the unpartitioned `freshGlobals`, with a cut
that is always rejected, `partitionModel` returns -1 but the domain has gained
two subdomains and a channel table has been allocated.  With
`OPS_NUM_SUBDOMAINS = 0` the rejected call still replaces the (absent) table
by a newly allocated empty one, and with `OPS_NUM_SUBDOMAINS = -1` the call
does not return a code at all. -/
theorem partitionModel_failed_cut_mutates :
    freshGlobals.OPS_PARTITIONED = false ∧
    freshGlobals.theDomain.theSubdomains = [] ∧
    freshGlobals.OPS_theChannels = none ∧
    (partitionModel cutFails freshGlobals 7).map
        (fun q => (q.1, q.2.theDomain.theSubdomains.map (fun s => s.tag), q.2.OPS_theChannels)) =
      some (-1, [2, 3],
        some { addr := 100, slots := [none, some { handle := 101 }, some { handle := 102 }] }) ∧
    (partitionModel cutFails { freshGlobals with OPS_NUM_SUBDOMAINS := 0 } 7).map
        (fun q => (q.1, q.2.OPS_theChannels)) =
      some (-1, some { addr := 100, slots := [] }) ∧
    partitionModel cutFails { freshGlobals with OPS_NUM_SUBDOMAINS := -1 } 7 = none :=
  ⟨rfl, rfl, rfl, by decide, by decide, by decide⟩

/-- C2, amended: if the `theDomain.partition` call made by `partitionModel`
from an unpartitioned state returns a negative code, `partitionModel` returns
that code, the partitioned flag stays false and the configuration globals are
unchanged; the subdomains created for the attempt (one per partition id other
than the main one, without analysis) stay registered after the earlier ones,
and the channel table is the newly allocated one, the earlier block having
been freed. -/
theorem partitionModel_failed_cut (ext : External) (g pre : Globals) (eleTag : Int)
    (hflag : g.OPS_PARTITIONED = false) (hpre : prepareCut ext g = some pre)
    (hfail : ext.cut pre.theDomain pre.OPS_NUM_SUBDOMAINS pre.OPS_USING_MAIN_DOMAIN
      pre.OPS_MAIN_DOMAIN_PARTITION_ID eleTag < 0) :
    ∃ (r : Int) (g' : Globals) (news : List ShadowSubdomain) (slots : List (Option Channel)),
      partitionModel ext g eleTag = some (r, g') ∧ r < 0 ∧
      r = ext.cut pre.theDomain pre.OPS_NUM_SUBDOMAINS pre.OPS_USING_MAIN_DOMAIN
        pre.OPS_MAIN_DOMAIN_PARTITION_ID eleTag ∧
      g'.OPS_PARTITIONED = false ∧
      g'.OPS_NUM_SUBDOMAINS = g.OPS_NUM_SUBDOMAINS ∧
      g'.OPS_USING_MAIN_DOMAIN = g.OPS_USING_MAIN_DOMAIN ∧
      g'.OPS_MAIN_DOMAIN_PARTITION_ID = g.OPS_MAIN_DOMAIN_PARTITION_ID ∧
      g'.theDomain.theSubdomains = g.theDomain.theSubdomains ++ news ∧
      news.map (fun s => s.tag) =
        List.map (fun (i : Nat) => (i : Int))
          (List.filter (fun (i : Nat) => decide ((i : Int) ≠ g.OPS_MAIN_DOMAIN_PARTITION_ID))
            (List.range' 1 g.OPS_NUM_SUBDOMAINS.toNat)) ∧
      (∀ s ∈ news, s.theAnalysis = none) ∧
      g'.OPS_theChannels = some { addr := g.heapNext, slots := slots } ∧
      slots.length = g.OPS_NUM_SUBDOMAINS.toNat ∧
      g'.heapFreed = (releaseChannels g).heapFreed := by
  have hN : 0 ≤ g.OPS_NUM_SUBDOMAINS := by
    by_contra hneg
    rw [prepareCut_negative ext g (not_le.mp hneg)] at hpre
    cases hpre
  obtain ⟨pre2, news, slots, e, s1, s2, s3, s4, s5, _, _, s8, _, s10, s11, _, s13, _⟩ :=
    prepareCut_spec ext g hN
  rw [hpre] at e
  cases e
  obtain ⟨g', q0, q1, _, q3, q4, q5, q6, q7, _⟩ :=
    partitionModel_of_prepare ext g pre eleTag hflag hpre
  obtain ⟨q7a, q7b, _⟩ := q7 hfail
  exact ⟨_, g', news, slots, q0, hfail, rfl, q7a, by rw [q4, s8], by rw [q5, s10],
    by rw [q6, s11], by rw [q7b, s1], s4, s5, by rw [q1, s2], s3, by rw [q3, s13]⟩

theorem partitionModel_failed_cut_witness :
    freshGlobals.OPS_PARTITIONED = false ∧
    prepareCut cutFails freshGlobals = some freshPrepared ∧
    ∃ (r : Int) (g' : Globals) (news : List ShadowSubdomain) (slots : List (Option Channel)),
      partitionModel cutFails freshGlobals 7 = some (r, g') ∧ r < 0 ∧
      r = cutFails.cut freshPrepared.theDomain freshPrepared.OPS_NUM_SUBDOMAINS
        freshPrepared.OPS_USING_MAIN_DOMAIN freshPrepared.OPS_MAIN_DOMAIN_PARTITION_ID 7 ∧
      g'.OPS_PARTITIONED = false ∧
      g'.OPS_NUM_SUBDOMAINS = freshGlobals.OPS_NUM_SUBDOMAINS ∧
      g'.OPS_USING_MAIN_DOMAIN = freshGlobals.OPS_USING_MAIN_DOMAIN ∧
      g'.OPS_MAIN_DOMAIN_PARTITION_ID = freshGlobals.OPS_MAIN_DOMAIN_PARTITION_ID ∧
      g'.theDomain.theSubdomains = freshGlobals.theDomain.theSubdomains ++ news ∧
      news.map (fun s => s.tag) =
        List.map (fun (i : Nat) => (i : Int))
          (List.filter
            (fun (i : Nat) => decide ((i : Int) ≠ freshGlobals.OPS_MAIN_DOMAIN_PARTITION_ID))
            (List.range' 1 freshGlobals.OPS_NUM_SUBDOMAINS.toNat)) ∧
      (∀ s ∈ news, s.theAnalysis = none) ∧
      g'.OPS_theChannels = some { addr := freshGlobals.heapNext, slots := slots } ∧
      slots.length = freshGlobals.OPS_NUM_SUBDOMAINS.toNat ∧
      g'.heapFreed = (releaseChannels freshGlobals).heapFreed :=
  ⟨rfl, by decide,
    partitionModel_failed_cut cutFails freshGlobals freshPrepared 7 rfl (by decide) (by decide)⟩

/-- C9, as stated, fails on the order of events: with a cut whose result code
is the number of subdomains it finds registered, `partitionModel` on a domain
without subdomains returns 2, so both subdomains were registered before the
cut ran; and with a rejected cut they are registered although no cut has
succeeded. -/
theorem partitionModel_registers_before_cut :
    freshGlobals.OPS_PARTITIONED = false ∧
    freshGlobals.theDomain.theSubdomains = [] ∧
    (partitionModel cutCountsSubdomains freshGlobals 7).map (fun q => q.1) = some 2 ∧
    (partitionModel cutFails freshGlobals 7).map
        (fun q => (q.1, q.2.OPS_PARTITIONED, q.2.theDomain.theSubdomains.map (fun s => s.tag))) =
      some (-1, false, [2, 3]) :=
  ⟨rfl, rfl, by decide, by decide⟩

/-- C9, amended: from an unpartitioned state with `N = OPS_NUM_SUBDOMAINS >= 1`
and main partition id `m`, a `partitionModel` call registers with the domain,
after the subdomains already there, exactly one new subdomain per partition id
`i` in `1..N` with `i != m`, carrying tag `i`, none for the main partition and
none twice.  They are constructed and registered before `theDomain.partition`
is called: the domain handed to the cut already holds them, and they are in
the domain afterwards whatever the result code. -/
theorem partitionModel_registers_subdomains (ext : External) (g : Globals) (eleTag : Int)
    (hflag : g.OPS_PARTITIONED = false) (hN : 1 ≤ g.OPS_NUM_SUBDOMAINS) :
    ∃ (pre g' : Globals) (news : List ShadowSubdomain),
      prepareCut ext g = some pre ∧
      pre.theDomain.theSubdomains = g.theDomain.theSubdomains ++ news ∧
      partitionModel ext g eleTag =
        some (ext.cut pre.theDomain g.OPS_NUM_SUBDOMAINS g.OPS_USING_MAIN_DOMAIN
          g.OPS_MAIN_DOMAIN_PARTITION_ID eleTag, g') ∧
      g'.theDomain.theSubdomains.map (fun s => (s.addr, s.tag, s.theChannel)) =
        (g.theDomain.theSubdomains ++ news).map (fun s => (s.addr, s.tag, s.theChannel)) ∧
      ∀ i : Int, (news.map (fun s => s.tag)).count i =
        if 1 ≤ i ∧ i ≤ g.OPS_NUM_SUBDOMAINS ∧ i ≠ g.OPS_MAIN_DOMAIN_PARTITION_ID then 1 else 0 := by
  obtain ⟨pre, news, slots, e, s1, _, _, s4, _, _, _, s8, _, s10, s11, _, _, _⟩ :=
    prepareCut_spec ext g (by omega)
  obtain ⟨g', q0, _, q2, _⟩ := partitionModel_of_prepare ext g pre eleTag hflag e
  refine ⟨pre, g', news, e, s1, ?_, ?_, ?_⟩
  · rw [q0, s8, s10, s11]
  · rw [q2, s1]
  · intro i
    rw [s4, newTags_count, Int.toNat_of_nonneg (by omega)]

theorem partitionModel_registers_subdomains_witness :
    staleGlobals.OPS_PARTITIONED = false ∧ 1 ≤ staleGlobals.OPS_NUM_SUBDOMAINS ∧
    ∃ (pre g' : Globals) (news : List ShadowSubdomain),
      prepareCut cutSucceeds staleGlobals = some pre ∧
      pre.theDomain.theSubdomains = staleGlobals.theDomain.theSubdomains ++ news ∧
      partitionModel cutSucceeds staleGlobals 7 =
        some (cutSucceeds.cut pre.theDomain staleGlobals.OPS_NUM_SUBDOMAINS
          staleGlobals.OPS_USING_MAIN_DOMAIN staleGlobals.OPS_MAIN_DOMAIN_PARTITION_ID 7, g') ∧
      g'.theDomain.theSubdomains.map (fun s => (s.addr, s.tag, s.theChannel)) =
        (staleGlobals.theDomain.theSubdomains ++ news).map
          (fun s => (s.addr, s.tag, s.theChannel)) ∧
      ∀ i : Int, (news.map (fun s => s.tag)).count i =
        if 1 ≤ i ∧ i ≤ staleGlobals.OPS_NUM_SUBDOMAINS ∧
            i ≠ staleGlobals.OPS_MAIN_DOMAIN_PARTITION_ID then 1 else 0 :=
  ⟨rfl, by decide, partitionModel_registers_subdomains cutSucceeds staleGlobals 7 rfl (by decide)⟩

theorem partitionModel_table_of_nonneg (ext : External) (g : Globals) (eleTag : Int)
    (hflag : g.OPS_PARTITIONED = false) (hN : 0 ≤ g.OPS_NUM_SUBDOMAINS) :
    ∃ (r : Int) (g' : Globals) (slots : List (Option Channel)),
      partitionModel ext g eleTag = some (r, g') ∧
      g'.OPS_theChannels = some { addr := g.heapNext, slots := slots } ∧
      slots.length = g.OPS_NUM_SUBDOMAINS.toNat ∧
      (∀ i : Nat, 1 ≤ i → (i : Int) ≤ g.OPS_NUM_SUBDOMAINS →
        (i : Int) ≠ g.OPS_MAIN_DOMAIN_PARTITION_ID →
        ∃ sub ∈ g'.theDomain.theSubdomains.drop g.theDomain.theSubdomains.length,
          sub.tag = (i : Int) ∧ slots[i - 1]? = some (some sub.theChannel)) ∧
      (∀ t, g.OPS_theChannels = some t → t.addr ∈ g'.heapFreed) ∧
      (∀ old : Option ChannelTable,
        (partitionModel ext { g with OPS_theChannels := old } eleTag).map
            (fun q => q.2.OPS_theChannels) =
          some (some { addr := g.heapNext, slots := slots })) := by
  obtain ⟨pre, news, slots, e, s1, s2, s3, _, _, s6, _, _, _, _, _, _, s13, _⟩ :=
    prepareCut_spec ext g hN
  obtain ⟨g', q0, q1, q2, q3, _⟩ := partitionModel_of_prepare ext g pre eleTag hflag e
  refine ⟨_, g', slots, q0, by rw [q1, s2], s3, ?_, ?_, ?_⟩
  · intro i hi1 hiN him
    obtain ⟨s, hs, hst, hsl⟩ := s6 i hi1 hiN him
    have hmap : (g'.theDomain.theSubdomains.drop g.theDomain.theSubdomains.length).map
        (fun s => (s.addr, s.tag, s.theChannel)) =
        news.map (fun s => (s.addr, s.tag, s.theChannel)) := by
      rw [List.map_drop, q2, s1, List.map_append]
      have hl : g.theDomain.theSubdomains.length =
          (g.theDomain.theSubdomains.map (fun s => (s.addr, s.tag, s.theChannel))).length := by
        simp
      rw [hl, List.drop_left]
    have hin : (s.addr, s.tag, s.theChannel) ∈
        (g'.theDomain.theSubdomains.drop g.theDomain.theSubdomains.length).map
          (fun s => (s.addr, s.tag, s.theChannel)) := by
      rw [hmap]
      exact List.mem_map_of_mem _ hs
    obtain ⟨sub, hsub, hEq⟩ := List.mem_map.mp hin
    have h2 : sub.tag = s.tag := congrArg (fun x => x.2.1) hEq
    have h3 : sub.theChannel = s.theChannel := congrArg (fun x => x.2.2) hEq
    exact ⟨sub, hsub, by rw [h2, hst], by rw [h3, hsl]⟩
  · intro t ht
    rw [q3, s13]
    unfold releaseChannels
    rw [ht]
    exact List.mem_cons_self _ _
  · intro old
    obtain ⟨pre2, _, _, e2, _, _, _, _, _, _, _, _, _, _, _, _, _, _⟩ :=
      prepareCut_spec ext { g with OPS_theChannels := old } hN
    obtain ⟨g2, p0, p1, _⟩ :=
      partitionModel_of_prepare ext { g with OPS_theChannels := old } pre2 eleTag hflag e2
    have hind := prepareCut_table_independent ext g old
    rw [e2, e] at hind
    simp only [Option.map_some', Option.some.injEq] at hind
    rw [p0]
    simp only [Option.map_some']
    rw [p1, hind, s2]

/-- C10: from every unpartitioned state with `N = OPS_NUM_SUBDOMAINS` and main
partition id `m`, `partitionModel` returns whenever `N >= 0` (a negative array
size never comes back from `new`), and whenever it has run the channel table
is the block allocated by this call, of length `N`, in which for every
partition id `i` in `1..N` with `i != m` entry `i - 1` is the channel of the
shadow subdomain with tag `i` that this call added to the domain; the block of
the previous table, if any, has been freed, and the new table is the same
whatever the previous table was (no entry is carried over). -/
theorem partitionModel_channel_table (ext : External) (g : Globals) (eleTag : Int)
    (hflag : g.OPS_PARTITIONED = false) :
    (0 ≤ g.OPS_NUM_SUBDOMAINS → ∃ (r : Int) (g' : Globals),
      partitionModel ext g eleTag = some (r, g')) ∧
    ∀ (r : Int) (g' : Globals), partitionModel ext g eleTag = some (r, g') →
      0 ≤ g.OPS_NUM_SUBDOMAINS ∧
      ∃ slots : List (Option Channel),
        g'.OPS_theChannels = some { addr := g.heapNext, slots := slots } ∧
        slots.length = g.OPS_NUM_SUBDOMAINS.toNat ∧
        (∀ i : Nat, 1 ≤ i → (i : Int) ≤ g.OPS_NUM_SUBDOMAINS →
          (i : Int) ≠ g.OPS_MAIN_DOMAIN_PARTITION_ID →
          ∃ sub ∈ g'.theDomain.theSubdomains.drop g.theDomain.theSubdomains.length,
            sub.tag = (i : Int) ∧ slots[i - 1]? = some (some sub.theChannel)) ∧
        (∀ t, g.OPS_theChannels = some t → t.addr ∈ g'.heapFreed) ∧
        (∀ old : Option ChannelTable,
          (partitionModel ext { g with OPS_theChannels := old } eleTag).map
              (fun q => q.2.OPS_theChannels) =
            some (some { addr := g.heapNext, slots := slots })) := by
  constructor
  · intro hN
    obtain ⟨r, g', _, h, _⟩ := partitionModel_table_of_nonneg ext g eleTag hflag hN
    exact ⟨r, g', h⟩
  · intro r g' hrun
    have hN : 0 ≤ g.OPS_NUM_SUBDOMAINS := by
      by_contra hneg
      have hnone : partitionModel ext g eleTag = none := by
        unfold partitionModel
        rw [if_neg (by rw [hflag]; simp), prepareCut_negative ext g (not_le.mp hneg)]
      rw [hnone] at hrun
      cases hrun
    obtain ⟨r2, g2, slots, h, rest⟩ := partitionModel_table_of_nonneg ext g eleTag hflag hN
    rw [hrun] at h
    simp only [Option.some.injEq, Prod.mk.injEq] at h
    obtain ⟨rfl, rfl⟩ := h
    exact ⟨hN, slots, rest⟩

theorem partitionModel_channel_table_witness :
    staleGlobals.OPS_PARTITIONED = false ∧
    (0 ≤ staleGlobals.OPS_NUM_SUBDOMAINS → ∃ (r : Int) (g' : Globals),
      partitionModel cutSucceeds staleGlobals 7 = some (r, g')) ∧
    ∀ (r : Int) (g' : Globals), partitionModel cutSucceeds staleGlobals 7 = some (r, g') →
      0 ≤ staleGlobals.OPS_NUM_SUBDOMAINS ∧
      ∃ slots : List (Option Channel),
        g'.OPS_theChannels = some { addr := staleGlobals.heapNext, slots := slots } ∧
        slots.length = staleGlobals.OPS_NUM_SUBDOMAINS.toNat ∧
        (∀ i : Nat, 1 ≤ i → (i : Int) ≤ staleGlobals.OPS_NUM_SUBDOMAINS →
          (i : Int) ≠ staleGlobals.OPS_MAIN_DOMAIN_PARTITION_ID →
          ∃ sub ∈ g'.theDomain.theSubdomains.drop staleGlobals.theDomain.theSubdomains.length,
            sub.tag = (i : Int) ∧ slots[i - 1]? = some (some sub.theChannel)) ∧
        (∀ t, staleGlobals.OPS_theChannels = some t → t.addr ∈ g'.heapFreed) ∧
        (∀ old : Option ChannelTable,
          (partitionModel cutSucceeds { staleGlobals with OPS_theChannels := old } 7).map
              (fun q => q.2.OPS_theChannels) =
            some (some { addr := staleGlobals.heapNext, slots := slots })) :=
  ⟨rfl, partitionModel_channel_table cutSucceeds staleGlobals 7 rfl⟩

/-! ## Facts about C strings and the transport -/

theorem takeWhile_append_nul (l : List Char) :
    (l ++ [NUL]).takeWhile (fun c => decide (c ≠ NUL)) =
      l.takeWhile (fun c => decide (c ≠ NUL)) := by
  induction l with
  | nil => simp [List.takeWhile]
  | cons c rest ih =>
    by_cases hc : c = NUL
    · have hp : decide (c ≠ NUL) = false := decide_eq_false (not_not.mpr hc)
      simp only [List.cons_append, List.takeWhile_cons, hp, Bool.false_eq_true, if_false]
    · have hp : decide (c ≠ NUL) = true := decide_eq_true hc
      simp only [List.cons_append, List.takeWhile_cons, hp, if_true, ih]

theorem strlen_cString (d : String) :
    ((strlen (cString d) : Int) + 1) = ((wireBytes d).length : Int) := by
  unfold strlen cString wireBytes
  rw [takeWhile_append_nul]
  simp

theorem take_cString (d : String) :
    (cString d).take ((strlen (cString d) : Int) + 1).toNat = wireBytes d := by
  have h : ((strlen (cString d) : Int) + 1).toNat = strlen (cString d) + 1 := by omega
  rw [h]
  unfold strlen cString wireBytes
  rw [takeWhile_append_nul]
  induction d.data with
  | nil => simp [List.takeWhile]
  | cons c rest ih =>
    by_cases hc : c = NUL
    · subst hc
      have hp : decide (NUL ≠ NUL) = false := decide_eq_false (not_not.mpr rfl)
      simp only [List.cons_append, List.takeWhile_cons, hp, Bool.false_eq_true, if_false,
        List.length_nil, Nat.zero_add, List.take_succ_cons, List.take_zero, List.nil_append]
    · have hp : decide (c ≠ NUL) = true := decide_eq_true hc
      simp only [List.cons_append, List.takeWhile_cons, hp, if_true, List.length_cons,
        List.take_succ_cons, ih]

theorem take_cString_wire (d : String) :
    (cString d).take ((wireBytes d).length : Int).toNat = wireBytes d := by
  rw [← strlen_cString]
  exact take_cString d

theorem toInt32_of_fit (n : Int) (h0 : 0 ≤ n) (h1 : n < 2147483648) : toInt32 n = n := by
  unfold toInt32
  omega

/-- For an argument shorter than `2^31 - 1` bytes the header is the number of
bytes of the C string, terminator included, and those bytes are sent. -/
theorem sent_of_fit (d : String) (h : (strlen (cString d) : Int) + 1 < 2147483648) :
    msgLengthOf d = ((wireBytes d).length : Int) ∧ sentBytes d = wireBytes d := by
  have hm : msgLengthOf d = ((wireBytes d).length : Int) := by
    unfold msgLengthOf
    rw [toInt32_of_fit _ (by omega) h]
    exact strlen_cString d
  refine ⟨hm, ?_⟩
  unfold sentBytes
  rw [hm]
  exact take_cString_wire d

theorem takeFirst_append_skip {α : Type} (p : α → Bool) (xs ys : List α)
    (h : ∀ x ∈ xs, p x = false) :
    takeFirst p (xs ++ ys) = (takeFirst p ys).map (fun r => (r.1, xs ++ r.2)) := by
  induction xs with
  | nil =>
    rw [List.nil_append]
    cases takeFirst p ys <;> simp
  | cons x rest ih =>
    have hx : p x = false := h x (List.mem_cons_self _ _)
    have hr : ∀ y ∈ rest, p y = false := fun y hy => h y (List.mem_cons_of_mem _ hy)
    rw [List.cons_append, takeFirst, if_neg (by simp [hx]), ih hr]
    cases takeFirst p ys <;> simp

theorem takeFirst_none {α : Type} (p : α → Bool) (xs : List α)
    (h : ∀ x ∈ xs, p x = false) : takeFirst p xs = none := by
  have := takeFirst_append_skip p xs [] h
  simpa [takeFirst] using this

theorem takeFirst_some {α : Type} (p : α → Bool) :
    ∀ (xs : List α) (x : α) (rest : List α), takeFirst p xs = some (x, rest) →
      p x = true ∧ x ∈ xs ∧ ∀ q : α → Bool, q x = false → rest.filter q = xs.filter q := by
  intro xs
  induction xs with
  | nil => intro x rest h; simp [takeFirst] at h
  | cons y ys ih =>
    intro x rest h
    by_cases hy : p y = true
    · simp only [takeFirst, hy, if_true, Option.some.injEq, Prod.mk.injEq] at h
      obtain ⟨rfl, rfl⟩ := h
      refine ⟨hy, List.mem_cons_self _ _, fun q hq => ?_⟩
      simp [List.filter_cons, hq]
    · simp only [takeFirst, hy, if_false] at h
      cases hrec : takeFirst p ys with
      | none => rw [hrec] at h; cases h
      | some r =>
        rw [hrec] at h
        simp only [Option.some.injEq, Prod.mk.injEq] at h
        obtain ⟨rfl, rfl⟩ := h
        obtain ⟨h1, h2, h3⟩ := ih r.1 r.2 hrec
        refine ⟨h1, List.mem_cons_of_mem _ h2, fun q hq => ?_⟩
        simp only [List.filter_cons, h3 q hq]

/-- What a completed receive did to the transport. -/
theorem MPI_Recv_spec (me : Int) (src : Option Int) (tag : Int) (c c' : Comm) (p : Packet)
    (h : MPI_Recv me src tag c = some (p, c')) :
    p.dest = me ∧ p.tag = tag ∧ (∀ s, src = some s → p.source = s) ∧ p ∈ c.inflight ∧
      c'.broadcasts = c.broadcasts ∧ c'.calls = c.calls ++ [MpiCall.recv me src tag] ∧
      ∀ q : Packet → Bool, q p = false → c'.inflight.filter q = c.inflight.filter q := by
  unfold MPI_Recv at h
  cases hrec : takeFirst (matchesRecv me src tag) c.inflight with
  | none => rw [hrec] at h; cases h
  | some r =>
    rw [hrec] at h
    simp only [Option.some.injEq, Prod.mk.injEq] at h
    obtain ⟨rfl, rfl⟩ := h
    obtain ⟨h1, h2, h3⟩ := takeFirst_some _ _ r.1 r.2 hrec
    unfold matchesRecv at h1
    simp only [Bool.and_eq_true, decide_eq_true_eq] at h1
    refine ⟨h1.1.1, h1.1.2, ?_, h2, rfl, rfl, h3⟩
    intro s hs
    subst hs
    simpa using h1.2

theorem MPI_Recv_blocks (me : Int) (src : Option Int) (tag : Int) (c : Comm)
    (h : ∀ p ∈ c.inflight, matchesRecv me src tag p = false) :
    MPI_Recv me src tag c = none := by
  unfold MPI_Recv
  rw [takeFirst_none _ _ h]

/-! ## The `send` command -/

theorem opsSend_pointToPoint (tcl : TclLib) (b : MachineBroker) (interp : Interp) (comm : Comm)
    (argv : List String) (k : Int) (hflag : argv.getD 1 "" = "-pid") (hargc : 3 < argv.length)
    (hpid : tcl.getInt (argv.getD 2 "") = Except.ok k) :
    opsSend BuildConfig.parallelInterpreters tcl b interp comm argv =
      if k > -1 ∧ k ≠ b.pid ∧ k < b.np then
        (TCL_OK, interp,
          MPI_Send b.pid (Datum.chars (sentBytes (argv.getD (argv.length - 1) ""))) k 1
            (MPI_Send b.pid
              (Datum.ints [msgLengthOf (argv.getD (argv.length - 1) "")]) k 0 comm))
      else (TCL_ERROR, interp, comm) := by
  have h2 : ¬ argv.length < 2 := by omega
  unfold opsSend
  simp only [h2, if_false, hflag, hargc, and_self, if_true, gt_iff_lt, hpid,
    MachineBroker.getPID, MachineBroker.getNP, sentBytes, msgLengthOf]

theorem opsSend_broadcast (tcl : TclLib) (b : MachineBroker) (interp : Interp) (comm : Comm)
    (argv : List String) (hargc : 2 ≤ argv.length)
    (hform : ¬ (argv.getD 1 "" = "-pid" ∧ 3 < argv.length)) :
    opsSend BuildConfig.parallelInterpreters tcl b interp comm argv =
      if b.pid = 0 then
        (TCL_OK, interp,
          MPI_Bcast_root b.np 0 (Datum.chars (sentBytes (argv.getD (argv.length - 1) "")))
            (MPI_Bcast_root b.np 0
              (Datum.ints [msgLengthOf (argv.getD (argv.length - 1) "")]) comm))
      else (TCL_ERROR, interp, comm) := by
  have h2 : ¬ argv.length < 2 := by omega
  unfold opsSend
  simp only [h2, if_false, gt_iff_lt, hform, MachineBroker.getPID, MachineBroker.getNP,
    sentBytes, msgLengthOf]

theorem tcl_status_distinct : TCL_OK ≠ TCL_ERROR := by decide

theorem mem_peersOf (np root p : Int) :
    p ∈ peersOf np root ↔ 0 ≤ p ∧ p < np ∧ p ≠ root := by
  unfold peersOf
  simp only [List.mem_filter, List.mem_map, List.mem_range, decide_eq_true_eq]
  constructor
  · rintro ⟨⟨a, ha, rfl⟩, hne⟩
    exact ⟨by omega, by omega, hne⟩
  · rintro ⟨h0, h1, hne⟩
    exact ⟨⟨p.toNat, by omega, by omega⟩, hne⟩

/-- C4: in the build that compiles the command body
(`_PARALLEL_INTERPRETERS`), a `send` with a payload that is not of the form
`send -pid ...` with more than three words is a broadcast.  On a process whose
PID is not 0 it returns `TCL_ERROR` and the transport is exactly as before (no
header, no payload, nothing recorded).  On process 0 it returns `TCL_OK` after
broadcasting the length header and then the payload, both of which reach every
peer `0 < p < np`.  The header is `strlen + 1` as an `int`; for a payload
shorter than `2^31 - 1` bytes it is the number of bytes of the payload with
its terminator, and exactly those bytes are broadcast. -/
theorem opsSend_broadcast_root_only (tcl : TclLib) (b : MachineBroker) (interp : Interp)
    (comm : Comm) (argv : List String) (hargc : 2 ≤ argv.length)
    (hform : ¬ (argv.getD 1 "" = "-pid" ∧ 3 < argv.length)) :
    TCL_ERROR ≠ TCL_OK ∧
    (b.pid ≠ 0 →
      opsSend BuildConfig.parallelInterpreters tcl b interp comm argv =
        (TCL_ERROR, interp, comm)) ∧
    (b.pid = 0 →
      ∃ c' : Comm,
        opsSend BuildConfig.parallelInterpreters tcl b interp comm argv = (TCL_OK, interp, c') ∧
        c'.calls = comm.calls ++
          [MpiCall.bcastRoot 0
              (Datum.ints [msgLengthOf (argv.getD (argv.length - 1) "")]),
            MpiCall.bcastRoot 0 (Datum.chars (sentBytes (argv.getD (argv.length - 1) "")))] ∧
        c'.inflight = comm.inflight ∧
        c'.broadcasts = comm.broadcasts ++
          ((peersOf b.np 0).map (fun p =>
              (p, Datum.ints [msgLengthOf (argv.getD (argv.length - 1) "")])) ++
            (peersOf b.np 0).map (fun p =>
              (p, Datum.chars (sentBytes (argv.getD (argv.length - 1) ""))))) ∧
        ∀ p : Int, 0 < p → p < b.np →
          (p, Datum.ints [msgLengthOf (argv.getD (argv.length - 1) "")]) ∈
              c'.broadcasts ∧
            (p, Datum.chars (sentBytes (argv.getD (argv.length - 1) ""))) ∈ c'.broadcasts) ∧
    ((strlen (cString (argv.getD (argv.length - 1) "")) : Int) + 1 < 2147483648 →
      msgLengthOf (argv.getD (argv.length - 1) "") =
          ((wireBytes (argv.getD (argv.length - 1) "")).length : Int) ∧
        sentBytes (argv.getD (argv.length - 1) "") =
          wireBytes (argv.getD (argv.length - 1) "")) := by
  refine ⟨by decide, ?_, ?_, sent_of_fit _⟩
  · intro hne
    rw [opsSend_broadcast tcl b interp comm argv hargc hform, if_neg hne]
  · intro h0
    rw [opsSend_broadcast tcl b interp comm argv hargc hform, if_pos h0]
    refine ⟨_, rfl, ?_, rfl, ?_, ?_⟩
    · simp [MPI_Bcast_root]
    · simp [MPI_Bcast_root]
    · intro p hp0 hpn
      have hmem : p ∈ peersOf b.np 0 := (mem_peersOf b.np 0 p).mpr ⟨by omega, hpn, by omega⟩
      simp only [MPI_Bcast_root, List.mem_append, List.mem_map]
      exact ⟨Or.inl (Or.inr ⟨p, hmem, rfl⟩), Or.inr ⟨p, hmem, rfl⟩⟩

theorem opsSend_broadcast_root_only_witness :
    2 ≤ (["send", "hello"] : List String).length ∧
    ¬ ((["send", "hello"] : List String).getD 1 "" = "-pid" ∧
        3 < (["send", "hello"] : List String).length) ∧
    opsSend BuildConfig.parallelInterpreters smallTcl { pid := 2, np := 3 } emptyInterp
        quietComm ["send", "hello"] = (TCL_ERROR, emptyInterp, quietComm) ∧
    ∃ c' : Comm,
      opsSend BuildConfig.parallelInterpreters smallTcl { pid := 0, np := 3 } emptyInterp
        quietComm ["send", "hello"] = (TCL_OK, emptyInterp, c') :=
  ⟨by decide, by decide,
    (opsSend_broadcast_root_only smallTcl { pid := 2, np := 3 } emptyInterp quietComm
      ["send", "hello"] (by decide) (by decide)).2.1 (by decide),
    ((opsSend_broadcast_root_only smallTcl { pid := 0, np := 3 } emptyInterp quietComm
      ["send", "hello"] (by decide) (by decide)).2.2.1 rfl).imp (fun _ h => h.1)⟩

/-- C5: in the `_PARALLEL_INTERPRETERS` build, on the process with PID `me`
among `np`, a command `send -pid k ... payload` whose third word reads as the
integer `k` returns `TCL_ERROR` with the transport untouched exactly when `k`
is outside `[0, np)` or equals `me`; otherwise it returns `TCL_OK`, leaves the
interpreter alone and hands the transport two messages, both addressed to `k`,
and nothing to anyone else.  The header is `strlen + 1` as an `int`; for a
payload shorter than `2^31 - 1` bytes it is the number of bytes of the payload
with its terminator, and exactly those bytes are sent. -/
theorem opsSend_pid_validation (tcl : TclLib) (b : MachineBroker) (interp : Interp)
    (comm : Comm) (argv : List String) (k : Int) (hflag : argv.getD 1 "" = "-pid")
    (hargc : 3 < argv.length) (hpid : tcl.getInt (argv.getD 2 "") = Except.ok k) :
    (((opsSend BuildConfig.parallelInterpreters tcl b interp comm argv).1 = TCL_ERROR ∧
        (opsSend BuildConfig.parallelInterpreters tcl b interp comm argv).2.2 = comm) ↔
      (k < 0 ∨ b.np ≤ k ∨ k = b.pid)) ∧
    (¬ (k < 0 ∨ b.np ≤ k ∨ k = b.pid) →
      (opsSend BuildConfig.parallelInterpreters tcl b interp comm argv).1 = TCL_OK ∧
      (opsSend BuildConfig.parallelInterpreters tcl b interp comm argv).2.1 = interp ∧
      (opsSend BuildConfig.parallelInterpreters tcl b interp comm argv).2.2.inflight =
        comm.inflight ++
          [Packet.mk b.pid k 0
              (Datum.ints [msgLengthOf (argv.getD (argv.length - 1) "")]),
            Packet.mk b.pid k 1 (Datum.chars (sentBytes (argv.getD (argv.length - 1) "")))] ∧
      (opsSend BuildConfig.parallelInterpreters tcl b interp comm argv).2.2.broadcasts =
        comm.broadcasts) ∧
    ((strlen (cString (argv.getD (argv.length - 1) "")) : Int) + 1 < 2147483648 →
      msgLengthOf (argv.getD (argv.length - 1) "") =
          ((wireBytes (argv.getD (argv.length - 1) "")).length : Int) ∧
        sentBytes (argv.getD (argv.length - 1) "") =
          wireBytes (argv.getD (argv.length - 1) "")) := by
  refine (fun (h : _ ∧ _) => ⟨h.1, h.2, sent_of_fit _⟩) ?_
  rw [opsSend_pointToPoint tcl b interp comm argv k hflag hargc hpid]
  by_cases hv : k > -1 ∧ k ≠ b.pid ∧ k < b.np
  · have hinv : ¬ (k < 0 ∨ b.np ≤ k ∨ k = b.pid) := by
      rintro (h | h | h)
      · omega
      · omega
      · exact hv.2.1 h
    rw [if_pos hv]
    refine ⟨⟨fun h => absurd h.1 tcl_status_distinct, fun h => absurd h hinv⟩, fun _ => ?_⟩
    refine ⟨rfl, rfl, ?_, rfl⟩
    simp [MPI_Send]
  · have hinv : k < 0 ∨ b.np ≤ k ∨ k = b.pid := by
      by_cases h1 : k < 0
      · exact Or.inl h1
      · by_cases h2 : b.np ≤ k
        · exact Or.inr (Or.inl h2)
        · refine Or.inr (Or.inr ?_)
          by_contra h3
          exact hv ⟨by omega, h3, by omega⟩
    rw [if_neg hv]
    exact ⟨⟨fun _ => hinv, fun _ => ⟨rfl, rfl⟩⟩, fun h => absurd hinv h⟩

theorem opsSend_pid_validation_witness :
    (["send", "-pid", "1", "hello"] : List String).getD 1 "" = "-pid" ∧
    3 < (["send", "-pid", "1", "hello"] : List String).length ∧
    smallTcl.getInt ((["send", "-pid", "1", "hello"] : List String).getD 2 "") = Except.ok 1 ∧
    (opsSend BuildConfig.parallelInterpreters smallTcl { pid := 1, np := 3 } emptyInterp
        quietComm ["send", "-pid", "1", "hello"]).1 = TCL_ERROR ∧
    (opsSend BuildConfig.parallelInterpreters smallTcl { pid := 1, np := 3 } emptyInterp
        quietComm ["send", "-pid", "1", "hello"]).2.2 = quietComm ∧
    (opsSend BuildConfig.parallelInterpreters smallTcl { pid := 2, np := 3 } emptyInterp
        quietComm ["send", "-pid", "1", "hello"]).1 = TCL_OK :=
  ⟨rfl, by decide, rfl,
    ((opsSend_pid_validation smallTcl { pid := 1, np := 3 } emptyInterp quietComm
      ["send", "-pid", "1", "hello"] 1 rfl (by decide) rfl).1.mpr (by decide)).1,
    ((opsSend_pid_validation smallTcl { pid := 1, np := 3 } emptyInterp quietComm
      ["send", "-pid", "1", "hello"] 1 rfl (by decide) rfl).1.mpr (by decide)).2,
    ((opsSend_pid_validation smallTcl { pid := 2, np := 3 } emptyInterp quietComm
      ["send", "-pid", "1", "hello"] 1 rfl (by decide) rfl).2.1 (by decide)).1⟩

theorem opsRecv_pointToPoint (tcl : TclLib) (b : MachineBroker) (interp : Interp) (comm : Comm)
    (argv : List String) (k : Int) (hflag : argv.getD 1 "" = "-pid") (hargc : 3 < argv.length)
    (hany : isAnySource (argv.getD 2 "") = false)
    (hpid : tcl.getInt (argv.getD 2 "") = Except.ok k) :
    opsRecv BuildConfig.parallelInterpreters tcl b interp comm argv =
      if k > -1 ∧ k < b.np then
        if b.pid ≠ k then
          match MPI_Recv b.pid (some k) 0 comm with
          | none => none
          | some r =>
            match r.1.body.asInt with
            | none => none
            | some msgLength =>
              storePayload interp (argv.getD (argv.length - 1) "") msgLength
                (fetchFrom b.pid k) r.2
        else some (TCL_ERROR, interp, comm)
      else some (TCL_ERROR, interp, comm) := by
  have h2 : ¬ argv.length < 2 := by omega
  unfold opsRecv
  simp only [h2, if_false, hflag, hargc, and_self, if_true, hany, Bool.false_eq_true, hpid,
    MachineBroker.getPID, MachineBroker.getNP]

theorem opsRecv_anySource (tcl : TclLib) (b : MachineBroker) (interp : Interp) (comm : Comm)
    (argv : List String) (hflag : argv.getD 1 "" = "-pid") (hargc : 3 < argv.length)
    (hany : isAnySource (argv.getD 2 "") = true) :
    opsRecv BuildConfig.parallelInterpreters tcl b interp comm argv =
      if (0 : Int) < b.np then
        match MPI_Recv b.pid none 0 comm with
        | none => none
        | some r =>
          match r.1.body.asInt with
          | none => none
          | some msgLength =>
            storePayload interp (argv.getD (argv.length - 1) "") msgLength
              (fetchFrom b.pid r.1.source) r.2
      else some (TCL_ERROR, interp, comm) := by
  have h2 : ¬ argv.length < 2 := by omega
  have h0 : ((0 : Int) > -1) := by decide
  unfold opsRecv
  simp only [h2, if_false, hflag, hargc, and_self, if_true, hany, h0, true_and,
    Bool.true_eq_false, MachineBroker.getPID, MachineBroker.getNP]

/-- What a returning `storePayload` did, when the payload is fetched from the
peer `src` with tag 1. -/
theorem storePayload_fetchFrom (interp : Interp) (v : String) (len : Int) (me src : Int)
    (c c' : Comm) (rc : Int) (i' : Interp)
    (h : storePayload interp v len (fetchFrom me src) c = some (rc, i', c')) :
    rc = TCL_OK ∧
      ((len ≤ 0 ∧ i' = interp ∧ c' = c) ∨
        (0 < len ∧ ∃ (pay : Packet) (bytes : List Char),
          MPI_Recv me (some src) 1 c = some (pay, c') ∧ pay.source = src ∧
          pay.body.asChars len = some bytes ∧ i' = Tcl_SetVar interp v (stringAt bytes))) := by
  unfold storePayload at h
  by_cases hl : len > 0
  · rw [if_pos hl] at h
    unfold fetchFrom at h
    cases hr : MPI_Recv me (some src) 1 c with
    | none => rw [hr] at h; cases h
    | some r =>
      rw [hr] at h
      simp only at h
      cases hb : r.1.body.asChars len with
      | none => rw [hb] at h; cases h
      | some bytes =>
        rw [hb] at h
        simp only [Option.some.injEq, Prod.mk.injEq] at h
        obtain ⟨rfl, rfl, rfl⟩ := h
        obtain ⟨_, _, hs, _⟩ := MPI_Recv_spec me (some src) 1 c r.2 r.1 hr
        exact ⟨rfl, Or.inr ⟨hl, r.1, bytes, rfl, hs src rfl, hb, rfl⟩⟩
  · rw [if_neg hl] at h
    simp only [Option.some.injEq, Prod.mk.injEq] at h
    obtain ⟨rfl, rfl, rfl⟩ := h
    exact ⟨rfl, Or.inl ⟨by omega, rfl, rfl⟩⟩

theorem matchesRecv_quiet (me src tag : Int) (p : Packet)
    (h : ¬ (p.source = src ∧ p.dest = me)) : matchesRecv me (some src) tag p = false := by
  unfold matchesRecv
  by_cases h1 : p.dest = me
  · by_cases h2 : p.source = src
    · exact absurd ⟨h2, h1⟩ h
    · simp [h2]
  · simp [h1]

/-- C6: in the `_PARALLEL_INTERPRETERS` build, on the process with PID `me`
among `np`, a command `recv -pid k ... v` whose third word reads as the
integer `k` returns `TCL_ERROR` with the interpreter (so `v`) and the
transport exactly as before precisely when `k` equals `me` or lies outside
`[0, np)`.  In every other case it waits for process `k` only: it does not
return while no header from `k` is under way, whatever other peers have sent,
and when it returns the status is `TCL_OK`, the only receives it has posted
name `k` as source, the messages of every other sender are still under
way, and the interpreter is as before or has `v` set to the string received.
It does return once the messages from `k` have arrived: with a header from
`k` whose length is not positive it returns `TCL_OK` having taken the header
only; with a header of positive length and a payload from `k` that fits, it
returns `TCL_OK` with `v` set to the string in the payload and both messages
taken. -/
theorem opsRecv_pid_validation (tcl : TclLib) (b : MachineBroker) (interp : Interp)
    (comm : Comm) (argv : List String) (k : Int) (hflag : argv.getD 1 "" = "-pid")
    (hargc : 3 < argv.length) (hany : isAnySource (argv.getD 2 "") = false)
    (hpid : tcl.getInt (argv.getD 2 "") = Except.ok k) :
    (opsRecv BuildConfig.parallelInterpreters tcl b interp comm argv =
        some (TCL_ERROR, interp, comm) ↔
      (k = b.pid ∨ k < 0 ∨ b.np ≤ k)) ∧
    (¬ (k = b.pid ∨ k < 0 ∨ b.np ≤ k) →
      ((∀ p ∈ comm.inflight, ¬ (p.source = k ∧ p.dest = b.pid)) →
        opsRecv BuildConfig.parallelInterpreters tcl b interp comm argv = none) ∧
      (∀ (rc : Int) (i' : Interp) (c' : Comm),
        opsRecv BuildConfig.parallelInterpreters tcl b interp comm argv = some (rc, i', c') →
        rc = TCL_OK ∧
        c'.inflight.filter (fun p => decide (p.source ≠ k)) =
          comm.inflight.filter (fun p => decide (p.source ≠ k)) ∧
        c'.broadcasts = comm.broadcasts ∧
        (c'.calls = comm.calls ++ [MpiCall.recv b.pid (some k) 0] ∨
          c'.calls = comm.calls ++
            [MpiCall.recv b.pid (some k) 0, MpiCall.recv b.pid (some k) 1]) ∧
        (i' = interp ∨
          ∃ bytes : List Char,
            i' = Tcl_SetVar interp (argv.getD (argv.length - 1) "") (stringAt bytes))) ∧
      (∀ (hdr : Packet) (c1 : Comm) (len : Int),
        MPI_Recv b.pid (some k) 0 comm = some (hdr, c1) → hdr.body.asInt = some len →
        (len ≤ 0 →
          opsRecv BuildConfig.parallelInterpreters tcl b interp comm argv =
            some (TCL_OK, interp, c1)) ∧
        (∀ (pay : Packet) (c2 : Comm) (bytes : List Char), 0 < len →
          MPI_Recv b.pid (some k) 1 c1 = some (pay, c2) →
          pay.body.asChars len = some bytes →
          opsRecv BuildConfig.parallelInterpreters tcl b interp comm argv =
            some (TCL_OK,
              Tcl_SetVar interp (argv.getD (argv.length - 1) "") (stringAt bytes), c2)))) := by
  rw [opsRecv_pointToPoint tcl b interp comm argv k hflag hargc hany hpid]
  have hvalid : ¬ (k = b.pid ∨ k < 0 ∨ b.np ≤ k) →
      ((∀ p ∈ comm.inflight, ¬ (p.source = k ∧ p.dest = b.pid)) →
        (match MPI_Recv b.pid (some k) 0 comm with
          | none => none
          | some r =>
            match r.1.body.asInt with
            | none => none
            | some msgLength =>
              storePayload interp (argv.getD (argv.length - 1) "") msgLength
                (fetchFrom b.pid k) r.2) = none) ∧
      (∀ (rc : Int) (i' : Interp) (c' : Comm),
        (match MPI_Recv b.pid (some k) 0 comm with
          | none => none
          | some r =>
            match r.1.body.asInt with
            | none => none
            | some msgLength =>
              storePayload interp (argv.getD (argv.length - 1) "") msgLength
                (fetchFrom b.pid k) r.2) = some (rc, i', c') →
        rc = TCL_OK ∧
        c'.inflight.filter (fun p => decide (p.source ≠ k)) =
          comm.inflight.filter (fun p => decide (p.source ≠ k)) ∧
        c'.broadcasts = comm.broadcasts ∧
        (c'.calls = comm.calls ++ [MpiCall.recv b.pid (some k) 0] ∨
          c'.calls = comm.calls ++
            [MpiCall.recv b.pid (some k) 0, MpiCall.recv b.pid (some k) 1]) ∧
        (i' = interp ∨
          ∃ bytes : List Char,
            i' = Tcl_SetVar interp (argv.getD (argv.length - 1) "") (stringAt bytes))) ∧
      (∀ (hdr : Packet) (c1 : Comm) (len : Int),
        MPI_Recv b.pid (some k) 0 comm = some (hdr, c1) → hdr.body.asInt = some len →
        (len ≤ 0 →
          (match MPI_Recv b.pid (some k) 0 comm with
            | none => none
            | some r =>
              match r.1.body.asInt with
              | none => none
              | some msgLength =>
                storePayload interp (argv.getD (argv.length - 1) "") msgLength
                  (fetchFrom b.pid k) r.2) = some (TCL_OK, interp, c1)) ∧
        (∀ (pay : Packet) (c2 : Comm) (bytes : List Char), 0 < len →
          MPI_Recv b.pid (some k) 1 c1 = some (pay, c2) →
          pay.body.asChars len = some bytes →
          (match MPI_Recv b.pid (some k) 0 comm with
            | none => none
            | some r =>
              match r.1.body.asInt with
              | none => none
              | some msgLength =>
                storePayload interp (argv.getD (argv.length - 1) "") msgLength
                  (fetchFrom b.pid k) r.2) =
            some (TCL_OK,
              Tcl_SetVar interp (argv.getD (argv.length - 1) "") (stringAt bytes), c2))) := by
    intro _
    refine ⟨?_, ?_, ?_⟩
    · intro hq
      rw [MPI_Recv_blocks b.pid (some k) 0 comm
        (fun p hp => matchesRecv_quiet b.pid k 0 p (hq p hp))]
    · intro rc i' c' h
      cases hr : MPI_Recv b.pid (some k) 0 comm with
      | none => rw [hr] at h; cases h
      | some r =>
        rw [hr] at h
        simp only at h
        cases hlen : r.1.body.asInt with
        | none => rw [hlen] at h; cases h
        | some len =>
          rw [hlen] at h
          simp only at h
          obtain ⟨_, _, hsrc, _, hb, hc, hf⟩ := MPI_Recv_spec b.pid (some k) 0 comm r.2 r.1 hr
          have hq1 : (fun p : Packet => decide (p.source ≠ k)) r.1 = false := by
            simp [hsrc k rfl]
          obtain ⟨hrc, hcase⟩ := storePayload_fetchFrom interp _ len b.pid k r.2 c' rc i' h
          refine ⟨hrc, ?_⟩
          rcases hcase with ⟨_, hi, rfl⟩ | ⟨_, pay, bytes, hpay, hps, _, hi⟩
          · exact ⟨hf _ hq1, hb, Or.inl hc, Or.inl hi⟩
          · obtain ⟨_, _, _, _, hb2, hc2, hf2⟩ :=
              MPI_Recv_spec b.pid (some k) 1 r.2 c' pay hpay
            have hq2 : (fun p : Packet => decide (p.source ≠ k)) pay = false := by
              simp [hps]
            refine ⟨by rw [hf2 _ hq2, hf _ hq1], by rw [hb2, hb], Or.inr ?_, Or.inr ⟨bytes, hi⟩⟩
            rw [hc2, hc]
            simp
    · intro hdr c1 len hr hlen
      rw [hr]
      simp only
      rw [hlen]
      simp only
      refine ⟨fun hle => ?_, fun pay c2 bytes hpos hp hb => ?_⟩
      · unfold storePayload
        rw [if_neg (by omega)]
      · unfold storePayload fetchFrom
        rw [if_pos hpos, hp]
        simp only
        rw [hb]
  by_cases hv : k > -1 ∧ k < b.np
  · by_cases hself : b.pid ≠ k
    · have hinv : ¬ (k = b.pid ∨ k < 0 ∨ b.np ≤ k) := by
        rintro (h | h | h)
        · exact hself h.symm
        · omega
        · omega
      rw [if_pos hv, if_pos hself]
      refine ⟨⟨fun h => ?_, fun h => absurd h hinv⟩, hvalid⟩
      exact absurd ((hvalid hinv).2.1 _ _ _ h).1.symm tcl_status_distinct
    · have hinv : k = b.pid ∨ k < 0 ∨ b.np ≤ k := Or.inl (not_not.mp hself).symm
      rw [if_pos hv, if_neg hself]
      exact ⟨⟨fun _ => hinv, fun _ => rfl⟩, fun h => absurd hinv h⟩
  · have hinv : k = b.pid ∨ k < 0 ∨ b.np ≤ k := by
      by_cases h1 : k < 0
      · exact Or.inr (Or.inl h1)
      · refine Or.inr (Or.inr ?_)
        by_contra h2
        exact hv ⟨by omega, by omega⟩
    rw [if_neg hv]
    exact ⟨⟨fun _ => hinv, fun _ => rfl⟩, fun h => absurd hinv h⟩

theorem opsRecv_pid_validation_witness :
    (["recv", "-pid", "0", "v"] : List String).getD 1 "" = "-pid" ∧
    3 < (["recv", "-pid", "0", "v"] : List String).length ∧
    isAnySource ((["recv", "-pid", "0", "v"] : List String).getD 2 "") = false ∧
    smallTcl.getInt ((["recv", "-pid", "0", "v"] : List String).getD 2 "") = Except.ok 0 ∧
    smallTcl.getInt ((["recv", "-pid", "1", "v"] : List String).getD 2 "") = Except.ok 1 ∧
    opsRecv BuildConfig.parallelInterpreters smallTcl { pid := 0, np := 3 } emptyInterp
        (commWithMessageFrom 1) ["recv", "-pid", "0", "v"] =
      some (TCL_ERROR, emptyInterp, commWithMessageFrom 1) ∧
    opsRecv BuildConfig.parallelInterpreters smallTcl { pid := 2, np := 3 } emptyInterp
        (commWithMessageFrom 1) ["recv", "-pid", "0", "v"] = none ∧
    opsRecv BuildConfig.parallelInterpreters smallTcl { pid := 0, np := 3 } emptyInterp
        (commWithMessageFrom 1) ["recv", "-pid", "1", "v"] =
      some (TCL_OK, Tcl_SetVar emptyInterp "v" "x",
        { inflight := [], broadcasts := [],
          calls := [MpiCall.recv 0 (some 1) 0, MpiCall.recv 0 (some 1) 1] }) ∧
    (Tcl_SetVar emptyInterp "v" "x").getVar "v" = some "x" :=
  ⟨rfl, by decide, by decide, rfl, rfl,
    (opsRecv_pid_validation smallTcl { pid := 0, np := 3 } emptyInterp (commWithMessageFrom 1)
      ["recv", "-pid", "0", "v"] 0 rfl (by decide) (by decide) rfl).1.mpr (by decide),
    ((opsRecv_pid_validation smallTcl { pid := 2, np := 3 } emptyInterp (commWithMessageFrom 1)
      ["recv", "-pid", "0", "v"] 0 rfl (by decide) (by decide) rfl).2 (by decide)).1
      (by decide),
    (((opsRecv_pid_validation smallTcl { pid := 0, np := 3 } emptyInterp (commWithMessageFrom 1)
      ["recv", "-pid", "1", "v"] 1 rfl (by decide) (by decide) rfl).2 (by decide)).2.2
      { source := 1, dest := 0, tag := 0, body := Datum.ints [2] }
      { inflight := [{ source := 1, dest := 0, tag := 1, body := Datum.chars ['x', NUL] }],
        broadcasts := [], calls := [MpiCall.recv 0 (some 1) 0] }
      2 (by decide) (by decide)).2
      { source := 1, dest := 0, tag := 1, body := Datum.chars ['x', NUL] }
      { inflight := [], broadcasts := [],
        calls := [MpiCall.recv 0 (some 1) 0, MpiCall.recv 0 (some 1) 1] }
      ['x', NUL] (by decide) (by decide) (by decide),
    by decide⟩

/-- C7, as stated, fails: process 0 runs `recv -pid ANY v` once with a message
from process 1 under way and once with the same message from process 2.  Both
runs return `TCL_OK` and leave the same interpreter behind (result untouched,
only `v` set to the payload), so no reading of the status and the interpreter
gives the source in both runs. -/
theorem opsRecv_any_hides_source :
    (commWithMessageFrom 1).inflight.map (fun p => p.source) = [1, 1] ∧
    (commWithMessageFrom 2).inflight.map (fun p => p.source) = [2, 2] ∧
    (opsRecv BuildConfig.parallelInterpreters smallTcl { pid := 0, np := 3 } emptyInterp
        (commWithMessageFrom 1) ["recv", "-pid", "ANY", "v"]).map (fun r => (r.1, r.2.1)) =
      some (TCL_OK, { result := "", vars := [("v", "x")] }) ∧
    (opsRecv BuildConfig.parallelInterpreters smallTcl { pid := 0, np := 3 } emptyInterp
        (commWithMessageFrom 2) ["recv", "-pid", "ANY", "v"]).map (fun r => (r.1, r.2.1)) =
      some (TCL_OK, { result := "", vars := [("v", "x")] }) ∧
    ¬ ∃ report : Int × Interp → Int,
      (opsRecv BuildConfig.parallelInterpreters smallTcl { pid := 0, np := 3 } emptyInterp
          (commWithMessageFrom 1) ["recv", "-pid", "ANY", "v"]).map
            (fun r => report (r.1, r.2.1)) = some 1 ∧
      (opsRecv BuildConfig.parallelInterpreters smallTcl { pid := 0, np := 3 } emptyInterp
          (commWithMessageFrom 2) ["recv", "-pid", "ANY", "v"]).map
            (fun r => report (r.1, r.2.1)) = some 2 := by
  have h1 : opsRecv BuildConfig.parallelInterpreters smallTcl { pid := 0, np := 3 } emptyInterp
      (commWithMessageFrom 1) ["recv", "-pid", "ANY", "v"] =
      some (TCL_OK, { result := "", vars := [("v", "x")] },
        { inflight := [], broadcasts := [],
          calls := [MpiCall.recv 0 none 0, MpiCall.recv 0 (some 1) 1] }) := by decide
  have h2 : opsRecv BuildConfig.parallelInterpreters smallTcl { pid := 0, np := 3 } emptyInterp
      (commWithMessageFrom 2) ["recv", "-pid", "ANY", "v"] =
      some (TCL_OK, { result := "", vars := [("v", "x")] },
        { inflight := [], broadcasts := [],
          calls := [MpiCall.recv 0 none 0, MpiCall.recv 0 (some 2) 1] }) := by decide
  refine ⟨by decide, by decide, by rw [h1]; rfl, by rw [h2]; rfl, ?_⟩
  rintro ⟨report, r1, r2⟩
  rw [h1] at r1
  rw [h2] at r2
  simp only [Option.map_some', Option.some.injEq] at r1 r2
  rw [r1] at r2
  exact absurd r2 (by decide)

/-- C7, amended: in the `_PARALLEL_INTERPRETERS` build, whenever
`recv -pid ANY v` (or `ANY_SOURCE`, `MPI_ANY_SOURCE`) returns `TCL_OK`, it has
taken the first length header addressed to this process from whichever peer
sent it and, when the length is positive, has taken the payload from that same
peer and stored it in `v`.  The PID of that peer is not reported: the
interpreter result is as before and no variable other than `v` is assigned. -/
theorem opsRecv_any_payload_source (tcl : TclLib) (b : MachineBroker) (interp : Interp)
    (comm : Comm) (argv : List String) (rc : Int) (i' : Interp) (c' : Comm)
    (hflag : argv.getD 1 "" = "-pid") (hargc : 3 < argv.length)
    (hany : isAnySource (argv.getD 2 "") = true)
    (hret : opsRecv BuildConfig.parallelInterpreters tcl b interp comm argv = some (rc, i', c'))
    (hok : rc = TCL_OK) :
    ∃ (hdr : Packet) (c1 : Comm) (len : Int),
      MPI_Recv b.pid none 0 comm = some (hdr, c1) ∧ hdr.body.asInt = some len ∧
      i'.result = interp.result ∧
      ((len ≤ 0 ∧ i' = interp ∧ c' = c1) ∨
        (0 < len ∧ ∃ (pay : Packet) (bytes : List Char),
          MPI_Recv b.pid (some hdr.source) 1 c1 = some (pay, c') ∧
          pay.source = hdr.source ∧ pay.body.asChars len = some bytes ∧
          i' = Tcl_SetVar interp (argv.getD (argv.length - 1) "") (stringAt bytes))) := by
  rw [opsRecv_anySource tcl b interp comm argv hflag hargc hany] at hret
  by_cases hnp : (0 : Int) < b.np
  · rw [if_pos hnp] at hret
    cases hr : MPI_Recv b.pid none 0 comm with
    | none => rw [hr] at hret; cases hret
    | some r =>
      rw [hr] at hret
      simp only at hret
      cases hlen : r.1.body.asInt with
      | none => rw [hlen] at hret; cases hret
      | some len =>
        rw [hlen] at hret
        simp only at hret
        obtain ⟨_, hcase⟩ :=
          storePayload_fetchFrom interp _ len b.pid r.1.source r.2 c' rc i' hret
        refine ⟨r.1, r.2, len, rfl, hlen, ?_, hcase⟩
        rcases hcase with ⟨_, rfl, _⟩ | ⟨_, _, _, _, _, _, rfl⟩
        · rfl
        · rfl
  · rw [if_neg hnp] at hret
    simp only [Option.some.injEq, Prod.mk.injEq] at hret
    exact absurd (hok ▸ hret.1).symm tcl_status_distinct

theorem opsRecv_any_payload_source_witness :
    (["recv", "-pid", "ANY", "v"] : List String).getD 1 "" = "-pid" ∧
    3 < (["recv", "-pid", "ANY", "v"] : List String).length ∧
    isAnySource ((["recv", "-pid", "ANY", "v"] : List String).getD 2 "") = true ∧
    opsRecv BuildConfig.parallelInterpreters smallTcl { pid := 0, np := 3 } emptyInterp
        (commWithMessageFrom 2) ["recv", "-pid", "ANY", "v"] =
      some (TCL_OK, { result := "", vars := [("v", "x")] },
        { inflight := [], broadcasts := [],
          calls := [MpiCall.recv 0 none 0, MpiCall.recv 0 (some 2) 1] }) ∧
    ∃ (hdr : Packet) (c1 : Comm) (len : Int),
      MPI_Recv 0 none 0 (commWithMessageFrom 2) = some (hdr, c1) ∧
      hdr.body.asInt = some len ∧
      ({ result := "", vars := [("v", "x")] } : Interp).result = emptyInterp.result ∧
      ((len ≤ 0 ∧ ({ result := "", vars := [("v", "x")] } : Interp) = emptyInterp ∧
          ({ inflight := [], broadcasts := [],
             calls := [MpiCall.recv 0 none 0, MpiCall.recv 0 (some 2) 1] } : Comm) = c1) ∨
        (0 < len ∧ ∃ (pay : Packet) (bytes : List Char),
          MPI_Recv 0 (some hdr.source) 1 c1 =
            some (pay, { inflight := [], broadcasts := [],
                         calls := [MpiCall.recv 0 none 0, MpiCall.recv 0 (some 2) 1] }) ∧
          pay.source = hdr.source ∧ pay.body.asChars len = some bytes ∧
          ({ result := "", vars := [("v", "x")] } : Interp) =
            Tcl_SetVar emptyInterp
              ((["recv", "-pid", "ANY", "v"] : List String).getD
                ((["recv", "-pid", "ANY", "v"] : List String).length - 1) "")
              (stringAt bytes))) :=
  ⟨rfl, by decide, by decide, by decide,
    opsRecv_any_payload_source smallTcl { pid := 0, np := 3 } emptyInterp
      (commWithMessageFrom 2) ["recv", "-pid", "ANY", "v"] TCL_OK _ _ rfl (by decide)
      (by decide) (by decide) rfl⟩

/-! ## Analysis binding -/

theorem bindAnalyses_analyses (kind : AnalysisKind) (l : List ShadowSubdomain) :
    ∀ h : Nat,
      (bindAnalyses kind l h).1.map (fun s => s.theAnalysis) =
        (List.range' h l.length).map
          (fun a => some (DomainDecompositionAnalysis.mk a kind)) ∧
      (bindAnalyses kind l h).2 = h + l.length := by
  induction l with
  | nil => intro h; simp [bindAnalyses]
  | cons a rest ih =>
    intro h
    obtain ⟨h1, h2⟩ := ih (h + 1)
    refine ⟨?_, ?_⟩
    · simp only [bindAnalyses, List.map_cons, List.length_cons, List.range'_succ, h1]
    · simp only [bindAnalyses, h2, List.length_cons]
      omega

theorem createSubdomains_heapNext (ext : External) (is : List Nat) :
    ∀ g : Globals, g.heapNext ≤ (createSubdomains ext is g).heapNext := by
  induction is with
  | nil => intro g; exact le_refl _
  | cons i rest ih =>
    intro g
    by_cases h : (i : Int) ≠ g.OPS_MAIN_DOMAIN_PARTITION_ID
    · simp only [createSubdomains, if_pos h]
      have := ih { g with
        heapNext := g.heapNext + 1
        theDomain := g.theDomain.addSubdomain
          { addr := g.heapNext, tag := (i : Int),
            theChannel := ext.shadowChannel g.heapNext (i : Int), theAnalysis := none }
        OPS_theChannels := storeChannel g.OPS_theChannels i (ext.shadowChannel g.heapNext (i : Int)) }
      simp only at this
      omega
    · simp only [createSubdomains, if_neg h]
      exact ih g

theorem prepareCut_heapNext (ext : External) (g pre : Globals)
    (hpre : prepareCut ext g = some pre) : g.heapNext < pre.heapNext := by
  have hrel : (releaseChannels g).heapNext = g.heapNext := by
    unfold releaseChannels
    cases g.OPS_theChannels <;> rfl
  have hens : ∀ x : Globals, x.heapNext ≤ (ensurePartitioner x).heapNext := by
    intro x
    unfold ensurePartitioner
    cases x.OPS_DOMAIN_PARTITIONER <;> simp
  unfold prepareCut allocateChannels at hpre
  by_cases hN : (releaseChannels g).OPS_NUM_SUBDOMAINS < 0
  · rw [if_pos hN] at hpre
    cases hpre
  · rw [if_neg hN] at hpre
    simp only [Option.some.injEq] at hpre
    rw [← hpre]
    have h1 := createSubdomains_heapNext ext
      (List.range' 1 (releaseChannels g).OPS_NUM_SUBDOMAINS.toNat)
      { releaseChannels g with
        OPS_theChannels :=
          some (ChannelTable.mk (releaseChannels g).heapNext
            (List.replicate (releaseChannels g).OPS_NUM_SUBDOMAINS.toNat none))
        heapNext := (releaseChannels g).heapNext + 1 }
    have h2 := hens (createSubdomains ext
      (List.range' 1 (releaseChannels g).OPS_NUM_SUBDOMAINS.toNat)
      { releaseChannels g with
        OPS_theChannels :=
          some (ChannelTable.mk (releaseChannels g).heapNext
            (List.replicate (releaseChannels g).OPS_NUM_SUBDOMAINS.toNat none))
        heapNext := (releaseChannels g).heapNext + 1 })
    simp only [hrel] at h1 h2 ⊢
    omega

/-- What a successful cut is followed by. -/
theorem partitionModel_success (ext : External) (g pre : Globals) (eleTag : Int)
    (hflag : g.OPS_PARTITIONED = false) (hpre : prepareCut ext g = some pre)
    (hok : 0 ≤ ext.cut pre.theDomain pre.OPS_NUM_SUBDOMAINS pre.OPS_USING_MAIN_DOMAIN
      pre.OPS_MAIN_DOMAIN_PARTITION_ID eleTag) :
    ∃ g' : Globals,
      partitionModel ext g eleTag =
        some (ext.cut pre.theDomain pre.OPS_NUM_SUBDOMAINS pre.OPS_USING_MAIN_DOMAIN
          pre.OPS_MAIN_DOMAIN_PARTITION_ID eleTag, g') ∧
      g'.OPS_PARTITIONED = true ∧
      g'.theDomain.theSubdomains =
        (bindAnalyses (analysisKind pre) pre.theDomain.theSubdomains pre.heapNext).1 ∧
      g'.heapNext =
        (bindAnalyses (analysisKind pre) pre.theDomain.theSubdomains pre.heapNext).2 := by
  unfold partitionModel
  rw [if_neg (by rw [hflag]; simp), hpre]
  simp only [if_neg (not_lt.mpr hok)]
  exact ⟨_, rfl, rfl, rfl, rfl⟩

/-- C11: from an unpartitioned state, when the cut made by `partitionModel`
succeeds, every subdomain the domain's iterator yields (the same subdomains,
in the same order, as just before the cut) holds an analysis created by this
call, no two of them the same object, all of one kind: static when
`the_static_analysis` is non-null and transient otherwise; and every later
`partitionModel` call returns 0 and changes nothing, so the binding stays.
When the cut fails no analysis is created or bound: the earlier subdomains are
as they were and the new ones hold none. -/
theorem partitionModel_binds_analyses (ext : External) (g pre : Globals) (eleTag : Int)
    (hflag : g.OPS_PARTITIONED = false) (hpre : prepareCut ext g = some pre) :
    (0 ≤ ext.cut pre.theDomain pre.OPS_NUM_SUBDOMAINS pre.OPS_USING_MAIN_DOMAIN
        pre.OPS_MAIN_DOMAIN_PARTITION_ID eleTag →
      ∃ g' : Globals,
        partitionModel ext g eleTag =
          some (ext.cut pre.theDomain pre.OPS_NUM_SUBDOMAINS pre.OPS_USING_MAIN_DOMAIN
            pre.OPS_MAIN_DOMAIN_PARTITION_ID eleTag, g') ∧
        g'.theDomain.theSubdomains.map (fun s => (s.addr, s.tag, s.theChannel)) =
          pre.theDomain.theSubdomains.map (fun s => (s.addr, s.tag, s.theChannel)) ∧
        (∀ s ∈ g'.theDomain.theSubdomains, ∃ a : DomainDecompositionAnalysis,
          s.theAnalysis = some a ∧ a.kind = analysisKind g ∧
          g.heapNext ≤ a.addr ∧ a.addr < g'.heapNext) ∧
        (g'.theDomain.theSubdomains.map (fun s => s.theAnalysis)).Nodup ∧
        (∀ (ext2 : External) (tag2 : Int), partitionModel ext2 g' tag2 = some (0, g'))) ∧
    (ext.cut pre.theDomain pre.OPS_NUM_SUBDOMAINS pre.OPS_USING_MAIN_DOMAIN
        pre.OPS_MAIN_DOMAIN_PARTITION_ID eleTag < 0 →
      ∃ (g' : Globals) (news : List ShadowSubdomain),
        partitionModel ext g eleTag =
          some (ext.cut pre.theDomain pre.OPS_NUM_SUBDOMAINS pre.OPS_USING_MAIN_DOMAIN
            pre.OPS_MAIN_DOMAIN_PARTITION_ID eleTag, g') ∧
        g'.theDomain.theSubdomains = g.theDomain.theSubdomains ++ news ∧
        (∀ s ∈ news, s.theAnalysis = none) ∧
        g'.heapNext = pre.heapNext) ∧
    (g.the_static_analysis ≠ none → analysisKind g = AnalysisKind.static) ∧
    (g.the_static_analysis = none → analysisKind g = AnalysisKind.transient) := by
  have hN : 0 ≤ g.OPS_NUM_SUBDOMAINS := by
    by_contra hneg
    rw [prepareCut_negative ext g (not_le.mp hneg)] at hpre
    cases hpre
  obtain ⟨pre2, news, slots, e, s1, _, _, _, s5, _, _, _, _, _, _, s12, _, _⟩ :=
    prepareCut_spec ext g hN
  rw [hpre] at e
  cases e
  have hkind : analysisKind pre = analysisKind g := by
    unfold analysisKind
    rw [s12]
  have hheap := prepareCut_heapNext ext g pre hpre
  refine ⟨fun hok => ?_, fun hfail => ?_, ?_, ?_⟩
  · obtain ⟨g', q0, q1, q2, q3⟩ := partitionModel_success ext g pre eleTag hflag hpre hok
    obtain ⟨b1, b2⟩ :=
      bindAnalyses_analyses (analysisKind pre) pre.theDomain.theSubdomains pre.heapNext
    refine ⟨g', q0, ?_, ?_, ?_, ?_⟩
    · rw [q2]
      exact bindAnalyses_map _ _ _
    · intro s hs
      have hmem : s.theAnalysis ∈ g'.theDomain.theSubdomains.map (fun s => s.theAnalysis) :=
        List.mem_map_of_mem _ hs
      rw [q2, b1] at hmem
      obtain ⟨a, ha, hEq⟩ := List.mem_map.mp hmem
      have hr := List.mem_range'_1.mp ha
      refine ⟨DomainDecompositionAnalysis.mk a (analysisKind pre), hEq.symm, hkind, ?_, ?_⟩
      · show g.heapNext ≤ a
        omega
      · show a < g'.heapNext
        rw [q3, b2]
        omega
    · rw [q2, b1]
      refine List.Nodup.map (fun x y hxy => ?_) (List.nodup_range' _ _)
      simpa using hxy
    · intro ext2 tag2
      unfold partitionModel
      rw [if_pos q1]
  · obtain ⟨g', q0, _, _, _, _, _, _, q7, _⟩ :=
      partitionModel_of_prepare ext g pre eleTag hflag hpre
    obtain ⟨_, q7b, q7c⟩ := q7 hfail
    exact ⟨g', news, q0, by rw [q7b, s1], s5, q7c⟩
  · intro h
    unfold analysisKind
    cases hs : g.the_static_analysis with
    | none => exact absurd hs h
    | some _ => rfl
  · intro h
    unfold analysisKind
    rw [h]

theorem partitionModel_binds_analyses_witness :
    freshGlobals.OPS_PARTITIONED = false ∧
    prepareCut cutSucceeds freshGlobals = some freshPrepared ∧
    0 ≤ cutSucceeds.cut freshPrepared.theDomain freshPrepared.OPS_NUM_SUBDOMAINS
      freshPrepared.OPS_USING_MAIN_DOMAIN freshPrepared.OPS_MAIN_DOMAIN_PARTITION_ID 7 ∧
    (partitionModel cutSucceeds freshGlobals 7).map
        (fun q => (q.1, q.2.theDomain.theSubdomains.map (fun s => (s.tag, s.theAnalysis)))) =
      some (0,
        [(2, some { addr := 105, kind := AnalysisKind.static }),
         (3, some { addr := 106, kind := AnalysisKind.static })]) ∧
    ∃ g' : Globals,
      partitionModel cutSucceeds freshGlobals 7 =
        some (cutSucceeds.cut freshPrepared.theDomain freshPrepared.OPS_NUM_SUBDOMAINS
          freshPrepared.OPS_USING_MAIN_DOMAIN freshPrepared.OPS_MAIN_DOMAIN_PARTITION_ID 7, g') ∧
      (∀ s ∈ g'.theDomain.theSubdomains, ∃ a : DomainDecompositionAnalysis,
        s.theAnalysis = some a ∧ a.kind = analysisKind freshGlobals ∧
        freshGlobals.heapNext ≤ a.addr ∧ a.addr < g'.heapNext) ∧
      (g'.theDomain.theSubdomains.map (fun s => s.theAnalysis)).Nodup ∧
      (∀ (ext2 : External) (tag2 : Int), partitionModel ext2 g' tag2 = some (0, g')) :=
  ⟨rfl, by decide, by decide, by decide,
    ((partitionModel_binds_analyses cutSucceeds freshGlobals freshPrepared 7 rfl
      (by decide)).1 (by decide)).imp (fun _ h => ⟨h.1, h.2.2⟩)⟩

/-! ## The `partition` and `barrier` commands -/

/-- C12, as stated, fails: in the `_PARALLEL_PROCESSING` build, with a cut that
is rejected, `partitionModel` returns -1 and the `partition` command that ran
it returns `TCL_OK`. -/
theorem opsPartition_ignores_failure :
    (partitionModel cutFails freshGlobals 3).map (fun q => q.1) = some (-1) ∧
    (opsPartition BuildConfig.parallelProcessing smallTcl cutFails 0 emptyInterp freshGlobals
        ["partition", "3"]).map (fun q => q.1) = some TCL_OK ∧
    TCL_OK ≠ TCL_ERROR :=
  ⟨by decide, by decide, by decide⟩

/-- C12, amended: the `partition` command never returns a failure status.
Whenever it returns, the status is `TCL_OK`, whatever code `partitionModel`
gave.  In the `_PARALLEL_PROCESSING` build it runs `partitionModel` once, on
the element tag read from its single argument (on an indeterminate tag when
there is not exactly one argument or it is not an integer), returns exactly
when `partitionModel` does and leaves the globals as `partitionModel` left
them; in the other builds it returns `TCL_OK` and changes nothing. -/
theorem opsPartition_status (cfg : BuildConfig) (tcl : TclLib) (ext : External) (junk : Int)
    (interp : Interp) (g : Globals) (argv : List String) :
    (∀ (rc : Int) (i' : Interp) (g' : Globals),
      opsPartition cfg tcl ext junk interp g argv = some (rc, i', g') → rc = TCL_OK) ∧
    (cfg = BuildConfig.parallelProcessing →
      ∃ eleTag : Int,
        (opsPartition cfg tcl ext junk interp g argv).map (fun q => q.2.2) =
          (partitionModel ext g eleTag).map (fun q => q.2) ∧
        (∀ n : Int, argv.length = 2 → tcl.getInt (argv.getD 1 "") = Except.ok n →
          eleTag = n) ∧
        (argv.length ≠ 2 → eleTag = junk)) ∧
    (cfg ≠ BuildConfig.parallelProcessing →
      opsPartition cfg tcl ext junk interp g argv = some (TCL_OK, interp, g)) := by
  refine ⟨?_, ?_, ?_⟩
  · intro rc i' g' h
    cases cfg with
    | parallelProcessing =>
      simp only [opsPartition] at h
      split at h
      · cases h
      · simp only [Option.some.injEq, Prod.mk.injEq] at h
        exact h.1.symm
    | sequential =>
      simp only [opsPartition, Option.some.injEq, Prod.mk.injEq] at h
      exact h.1.symm
    | parallelInterpreters =>
      simp only [opsPartition, Option.some.injEq, Prod.mk.injEq] at h
      exact h.1.symm
  · intro hcfg
    subst hcfg
    by_cases h2 : argv.length = 2
    · cases hp : tcl.getInt (argv.getD 1 "") with
      | ok n =>
        refine ⟨n, ?_, fun m _ hm => ?_, fun hne => absurd h2 hne⟩
        · simp only [opsPartition, h2, if_true, hp]
          cases partitionModel ext g n <;> rfl
        · cases hm
          rfl
      | error msg =>
        refine ⟨junk, ?_, fun m _ hm => ?_, fun _ => rfl⟩
        · simp only [opsPartition, h2, if_true, hp]
          cases partitionModel ext g junk <;> rfl
        · cases hm
    · refine ⟨junk, ?_, fun m hm _ => absurd hm h2, fun _ => rfl⟩
      simp only [opsPartition, h2, if_false]
      cases partitionModel ext g junk <;> rfl
  · intro hcfg
    cases cfg with
    | parallelProcessing => exact absurd rfl hcfg
    | sequential => rfl
    | parallelInterpreters => rfl

/-- C13, as stated, fails: in the `_PARALLEL_PROCESSING` build the `barrier`
command returns `TCL_OK` and makes no transport call, although a barrier there
would have reported status 7. -/
theorem opsBarrier_skipped_when_processing :
    opsBarrier BuildConfig.parallelProcessing 7 quietComm = (TCL_OK, quietComm) ∧
    MPI_Barrier 7 quietComm =
      (7, { inflight := [], broadcasts := [], calls := [MpiCall.barrier] }) ∧
    (7 : Int) ≠ TCL_OK :=
  ⟨by decide, by decide, by decide⟩

/-- C13, amended: over the three build configurations, the `barrier` command
returns `TCL_OK` without any transport call in the non-distributed build and
in the `_PARALLEL_PROCESSING` build; only in the `_PARALLEL_INTERPRETERS`
build does it enter the global barrier, once, and return its status. -/
theorem opsBarrier_by_configuration (status : Int) (comm : Comm) :
    opsBarrier BuildConfig.sequential status comm = (TCL_OK, comm) ∧
    opsBarrier BuildConfig.parallelProcessing status comm = (TCL_OK, comm) ∧
    opsBarrier BuildConfig.parallelInterpreters status comm = MPI_Barrier status comm ∧
    (opsBarrier BuildConfig.parallelInterpreters status comm).1 = status ∧
    (opsBarrier BuildConfig.parallelInterpreters status comm).2.calls =
      comm.calls ++ [MpiCall.barrier] ∧
    ∀ cfg : BuildConfig,
      (opsBarrier cfg status comm).2 = comm ↔ cfg ≠ BuildConfig.parallelInterpreters := by
  refine ⟨rfl, rfl, rfl, rfl, rfl, ?_⟩
  intro cfg
  cases cfg with
  | sequential => exact ⟨fun _ => by decide, fun _ => rfl⟩
  | parallelProcessing => exact ⟨fun _ => by decide, fun _ => rfl⟩
  | parallelInterpreters =>
    refine ⟨fun h => ?_, fun h => absurd rfl h⟩
    have hl := congrArg (fun c : Comm => c.calls.length) h
    simp [opsBarrier, MPI_Barrier] at hl

/-! ## Broadcast receive -/

theorem opsRecv_broadcast (tcl : TclLib) (b : MachineBroker) (interp : Interp) (comm : Comm)
    (argv : List String) (hargc : 2 ≤ argv.length)
    (hform : ¬ (argv.getD 1 "" = "-pid" ∧ 3 < argv.length)) :
    opsRecv BuildConfig.parallelInterpreters tcl b interp comm argv =
      if b.pid ≠ 0 then
        match MPI_Bcast_recv b.pid 0 comm with
        | none => none
        | some r =>
          match r.1.asInt with
          | none => none
          | some msgLength =>
            storePayload interp (argv.getD (argv.length - 1) "") msgLength
              (MPI_Bcast_recv b.pid 0) r.2
      else some (TCL_ERROR, interp, comm) := by
  have h2 : ¬ argv.length < 2 := by omega
  unfold opsRecv
  simp only [h2, if_false, hform, MachineBroker.getPID]

theorem storePayload_broadcast (interp : Interp) (v : String) (len : Int) (me : Int)
    (c c' : Comm) (rc : Int) (i' : Interp)
    (h : storePayload interp v len (MPI_Bcast_recv me 0) c = some (rc, i', c')) :
    rc = TCL_OK ∧
      ((len ≤ 0 ∧ i' = interp ∧ c' = c) ∨
        (0 < len ∧ ∃ (pay : Datum) (bytes : List Char),
          MPI_Bcast_recv me 0 c = some (pay, c') ∧
          pay.asChars len = some bytes ∧ i' = Tcl_SetVar interp v (stringAt bytes))) := by
  unfold storePayload at h
  by_cases hl : len > 0
  · rw [if_pos hl] at h
    cases hr : MPI_Bcast_recv me 0 c with
    | none => rw [hr] at h; cases h
    | some r =>
      rw [hr] at h
      simp only at h
      cases hb : r.1.asChars len with
      | none => rw [hb] at h; cases h
      | some bytes =>
        rw [hb] at h
        simp only [Option.some.injEq, Prod.mk.injEq] at h
        obtain ⟨rfl, rfl, rfl⟩ := h
        exact ⟨rfl, Or.inr ⟨hl, r.1, bytes, rfl, hb, rfl⟩⟩
  · rw [if_neg hl] at h
    simp only [Option.some.injEq, Prod.mk.injEq] at h
    obtain ⟨rfl, rfl, rfl⟩ := h
    exact ⟨rfl, Or.inl ⟨by omega, rfl, rfl⟩⟩

/-- C17: in the `_PARALLEL_INTERPRETERS` build, a `send` or `recv` of two or
three words, `send -pid x` included, is not the point-to-point form: whatever
`Tcl_GetInt` would say about any word, `send` behaves as the broadcast of its
last word (performed on process 0, `TCL_ERROR` with nothing sent elsewhere)
and `recv` as the broadcast receive into the variable named by its last word
(performed on every process but 0, `TCL_ERROR` with nothing received on
process 0).  With fewer than two words both commands return `TCL_OK` and
touch nothing.  The broadcast header is `strlen + 1` as an `int`; for a last
word shorter than `2^31 - 1` bytes it is the number of bytes of that word with
its terminator, and exactly those bytes are broadcast. -/
theorem short_commands_take_broadcast_path (tcl : TclLib) (b : MachineBroker) (interp : Interp)
    (comm : Comm) (argv : List String) :
    (argv.length < 2 →
      opsSend BuildConfig.parallelInterpreters tcl b interp comm argv = (TCL_OK, interp, comm) ∧
      opsRecv BuildConfig.parallelInterpreters tcl b interp comm argv =
        some (TCL_OK, interp, comm)) ∧
    (2 ≤ argv.length → argv.length ≤ 3 →
      opsSend BuildConfig.parallelInterpreters tcl b interp comm argv =
        (if b.pid = 0 then
          (TCL_OK, interp,
            MPI_Bcast_root b.np 0 (Datum.chars (sentBytes (argv.getD (argv.length - 1) "")))
              (MPI_Bcast_root b.np 0
                (Datum.ints [msgLengthOf (argv.getD (argv.length - 1) "")])
                comm))
        else (TCL_ERROR, interp, comm)) ∧
      opsRecv BuildConfig.parallelInterpreters tcl b interp comm argv =
        (if b.pid ≠ 0 then
          match MPI_Bcast_recv b.pid 0 comm with
          | none => none
          | some r =>
            match r.1.asInt with
            | none => none
            | some msgLength =>
              storePayload interp (argv.getD (argv.length - 1) "") msgLength
                (MPI_Bcast_recv b.pid 0) r.2
        else some (TCL_ERROR, interp, comm)) ∧
      ((opsSend BuildConfig.parallelInterpreters tcl b interp comm argv).1 = TCL_ERROR ↔
        b.pid ≠ 0) ∧
      (∀ (rc : Int) (i' : Interp) (c' : Comm),
        opsRecv BuildConfig.parallelInterpreters tcl b interp comm argv = some (rc, i', c') →
        (rc = TCL_ERROR ↔ b.pid = 0)) ∧
      ∀ tcl2 : TclLib,
        opsSend BuildConfig.parallelInterpreters tcl2 b interp comm argv =
          opsSend BuildConfig.parallelInterpreters tcl b interp comm argv ∧
        opsRecv BuildConfig.parallelInterpreters tcl2 b interp comm argv =
          opsRecv BuildConfig.parallelInterpreters tcl b interp comm argv) ∧
    ((strlen (cString (argv.getD (argv.length - 1) "")) : Int) + 1 < 2147483648 →
      msgLengthOf (argv.getD (argv.length - 1) "") =
          ((wireBytes (argv.getD (argv.length - 1) "")).length : Int) ∧
        sentBytes (argv.getD (argv.length - 1) "") =
          wireBytes (argv.getD (argv.length - 1) "")) := by
  refine ⟨fun hlt => ?_, fun h2 h3 => ?_, sent_of_fit _⟩
  · constructor
    · unfold opsSend
      simp only [hlt, if_true]
    · unfold opsRecv
      simp only [hlt, if_true]
  · have hform : ¬ (argv.getD 1 "" = "-pid" ∧ 3 < argv.length) := fun h => by omega
    refine ⟨opsSend_broadcast tcl b interp comm argv h2 hform,
      opsRecv_broadcast tcl b interp comm argv h2 hform, ?_, ?_, fun tcl2 => ⟨?_, ?_⟩⟩
    · rw [opsSend_broadcast tcl b interp comm argv h2 hform]
      by_cases h0 : b.pid = 0
      · rw [if_pos h0]
        exact ⟨fun h => absurd h tcl_status_distinct, fun h => absurd h0 h⟩
      · rw [if_neg h0]
        exact ⟨fun _ => h0, fun _ => rfl⟩
    · intro rc i' c' h
      rw [opsRecv_broadcast tcl b interp comm argv h2 hform] at h
      by_cases h0 : b.pid = 0
      · rw [if_neg (not_not.mpr h0)] at h
        simp only [Option.some.injEq, Prod.mk.injEq] at h
        exact ⟨fun _ => h0, fun _ => h.1.symm⟩
      · rw [if_pos h0] at h
        refine ⟨fun hrc => ?_, fun hz => absurd hz h0⟩
        cases hr : MPI_Bcast_recv b.pid 0 comm with
        | none => rw [hr] at h; cases h
        | some r =>
          rw [hr] at h
          simp only at h
          cases hlen : r.1.asInt with
          | none => rw [hlen] at h; cases h
          | some len =>
            rw [hlen] at h
            simp only at h
            obtain ⟨hok, _⟩ := storePayload_broadcast interp _ len b.pid r.2 c' rc i' h
            exact absurd (hok.symm.trans hrc) tcl_status_distinct
    · rw [opsSend_broadcast tcl2 b interp comm argv h2 hform,
        opsSend_broadcast tcl b interp comm argv h2 hform]
    · rw [opsRecv_broadcast tcl2 b interp comm argv h2 hform,
        opsRecv_broadcast tcl b interp comm argv h2 hform]

/-! ## The element frame of `CrisfieldTransform` -/

theorem relativeRotation_eq {K : Type} [Field K] (RI RJ : Matrix3D K) :
    relativeRotation RI RJ = RJ * RI.transpose := by
  ext i j
  simp [relativeRotation, Matrix.mul_apply, Fin.sum_univ_three]

/-- C15: in exact arithmetic (any field), for all `qI`, `qJ` and `e1`,
`update` returns 0 and afterwards `getReference()` is the versor of
`CaySO3(gammaw/2) * RI`, where `gammaw` is the Cayley vector of the versor of
`RJ * RI^T`, and `getRotation()` has the columns `e1`,
`e2 = r2 - (e1 + r1) * ((r2 . e1)/2)` and `e3 = r3 - (e1 + r1) * ((r3 . e1)/2)`,
with `r1`, `r2`, `r3` the vectors of the triad of the matrix of
`getReference()`. -/
theorem CrisfieldTransform_update_frame {K : Type} [Field K] (rot : Rotations K)
    (self : CrisfieldTransform K) (qI qJ : Versor K) (e1 : Vector3D K) :
    (self.update rot qI qJ e1).1 = 0 ∧
    (self.update rot qI qJ e1).2.getReference =
      rot.VersorFromMatrix
        (rot.CaySO3
            (fun i => rot.CayleyFromVersor
              (rot.VersorFromMatrix
                (rot.MatrixFromVersor qJ * (rot.MatrixFromVersor qI).transpose)) i / 2) *
          rot.MatrixFromVersor qI) ∧
    ∀ k : Fin 3,
      (self.update rot qI qJ e1).2.getRotation k 0 = e1 k ∧
      (self.update rot qI qJ e1).2.getRotation k 1 =
        Triad (rot.MatrixFromVersor (self.update rot qI qJ e1).2.getReference) 2 k -
          (e1 k + Triad (rot.MatrixFromVersor (self.update rot qI qJ e1).2.getReference) 1 k) *
            (Vector3D.dot
              (Triad (rot.MatrixFromVersor (self.update rot qI qJ e1).2.getReference) 2) e1 / 2) ∧
      (self.update rot qI qJ e1).2.getRotation k 2 =
        Triad (rot.MatrixFromVersor (self.update rot qI qJ e1).2.getReference) 3 k -
          (e1 k + Triad (rot.MatrixFromVersor (self.update rot qI qJ e1).2.getReference) 1 k) *
            (Vector3D.dot
              (Triad (rot.MatrixFromVersor (self.update rot qI qJ e1).2.getReference) 3) e1 / 2) := by
  refine ⟨rfl, ?_, fun k => ⟨?_, ?_, ?_⟩⟩
  · have hhalf : ∀ v : Vector3D K, v.scale (1 / 2) = fun i => v i / 2 := by
      intro v
      funext i
      unfold Vector3D.scale
      ring
    simp only [CrisfieldTransform.update, CrisfieldTransform.getReference,
      relativeRotation_eq, hhalf]
  · simp [CrisfieldTransform.update, CrisfieldTransform.getRotation]
  · simp only [CrisfieldTransform.update, CrisfieldTransform.getRotation,
      CrisfieldTransform.getReference, Vector3D.scale, Vector3D.addVector, Matrix.of_apply]
    simp
    ring
  · simp only [CrisfieldTransform.update, CrisfieldTransform.getRotation,
      CrisfieldTransform.getReference, Vector3D.scale, Vector3D.addVector, Matrix.of_apply]
    simp
    ring

/-! ## Mass of a finite-strain particle -/

/-- C16: in exact arithmetic (any field), when the determinant of the stored
deformation gradient increment and the determinants of the increments newly
computed for `compute_strain` and for `compute_strain_volume_newmark` are not
zero.  `compute_strain` stores the increment the base class computes from the
particle and the time step, multiplies `volume_` by its determinant and
divides `mass_density_` by it, so `volume_ * mass_density_` is unchanged.
`compute_strain_volume_newmark` first undoes the stored increment (volume
divided, density multiplied by its determinant), stores the increment the
base class computes from the particle so restored, and applies it: the volume
is `old volume / det(old increment) * det(new increment)` and
`volume_ * mass_density_` is unchanged.  A second run computes its increment
from the same restored volume and density and yields
`old volume / det(old increment) * det(newest increment)`: the change of the
first run is undone, not compounded. -/
theorem particle_mass_conserved {K : Type} [Field K] (base : ParticleBase K)
    (p : ParticleFiniteStrain K) (dt : K)
    (hold : p.deformation_gradient_increment_.det ≠ 0)
    (hstrain : (base.withDt p dt).det ≠ 0)
    (hnewmark : (base.withoutDt
      (ParticleFiniteStrain.mk (p.volume_ / p.deformation_gradient_increment_.det)
        (p.mass_density_ * p.deformation_gradient_increment_.det)
        p.deformation_gradient_increment_)).det ≠ 0) :
    (compute_strain base p dt).deformation_gradient_increment_ = base.withDt p dt ∧
    (compute_strain base p dt).volume_ = p.volume_ * (base.withDt p dt).det ∧
    (compute_strain base p dt).mass_density_ = p.mass_density_ / (base.withDt p dt).det ∧
    (compute_strain base p dt).volume_ * (compute_strain base p dt).mass_density_ =
      p.volume_ * p.mass_density_ ∧
    (compute_strain_volume_newmark base p).deformation_gradient_increment_ =
      base.withoutDt
        (ParticleFiniteStrain.mk (p.volume_ / p.deformation_gradient_increment_.det)
          (p.mass_density_ * p.deformation_gradient_increment_.det)
          p.deformation_gradient_increment_) ∧
    (compute_strain_volume_newmark base p).volume_ =
      p.volume_ / p.deformation_gradient_increment_.det *
        (base.withoutDt
          (ParticleFiniteStrain.mk (p.volume_ / p.deformation_gradient_increment_.det)
            (p.mass_density_ * p.deformation_gradient_increment_.det)
            p.deformation_gradient_increment_)).det ∧
    (compute_strain_volume_newmark base p).mass_density_ =
      p.mass_density_ * p.deformation_gradient_increment_.det /
        (base.withoutDt
          (ParticleFiniteStrain.mk (p.volume_ / p.deformation_gradient_increment_.det)
            (p.mass_density_ * p.deformation_gradient_increment_.det)
            p.deformation_gradient_increment_)).det ∧
    (compute_strain_volume_newmark base p).volume_ *
        (compute_strain_volume_newmark base p).mass_density_ =
      p.volume_ * p.mass_density_ ∧
    (compute_strain_volume_newmark base
        (compute_strain_volume_newmark base p)).deformation_gradient_increment_ =
      base.withoutDt
        (ParticleFiniteStrain.mk (p.volume_ / p.deformation_gradient_increment_.det)
          (p.mass_density_ * p.deformation_gradient_increment_.det)
          (compute_strain_volume_newmark base p).deformation_gradient_increment_) ∧
    (compute_strain_volume_newmark base (compute_strain_volume_newmark base p)).volume_ =
      p.volume_ / p.deformation_gradient_increment_.det *
        (base.withoutDt
          (ParticleFiniteStrain.mk (p.volume_ / p.deformation_gradient_increment_.det)
            (p.mass_density_ * p.deformation_gradient_increment_.det)
            (compute_strain_volume_newmark base p).deformation_gradient_increment_)).det := by
  have hundo : ParticleFiniteStrain.mk
      ((compute_strain_volume_newmark base p).volume_ /
        (compute_strain_volume_newmark base p).deformation_gradient_increment_.det)
      ((compute_strain_volume_newmark base p).mass_density_ *
        (compute_strain_volume_newmark base p).deformation_gradient_increment_.det)
      (compute_strain_volume_newmark base p).deformation_gradient_increment_ =
      ParticleFiniteStrain.mk (p.volume_ / p.deformation_gradient_increment_.det)
        (p.mass_density_ * p.deformation_gradient_increment_.det)
        (compute_strain_volume_newmark base p).deformation_gradient_increment_ := by
    have hv : (compute_strain_volume_newmark base p).volume_ /
        (compute_strain_volume_newmark base p).deformation_gradient_increment_.det =
        p.volume_ / p.deformation_gradient_increment_.det :=
      mul_div_cancel_right₀ _ hnewmark
    have hm : (compute_strain_volume_newmark base p).mass_density_ *
        (compute_strain_volume_newmark base p).deformation_gradient_increment_.det =
        p.mass_density_ * p.deformation_gradient_increment_.det :=
      div_mul_cancel₀ _ hnewmark
    rw [hv, hm]
  have hinc2 : (compute_strain_volume_newmark base
        (compute_strain_volume_newmark base p)).deformation_gradient_increment_ =
      base.withoutDt
        (ParticleFiniteStrain.mk (p.volume_ / p.deformation_gradient_increment_.det)
          (p.mass_density_ * p.deformation_gradient_increment_.det)
          (compute_strain_volume_newmark base p).deformation_gradient_increment_) :=
    congrArg base.withoutDt hundo
  have hvol2 : (compute_strain_volume_newmark base
        (compute_strain_volume_newmark base p)).volume_ =
      (compute_strain_volume_newmark base p).volume_ /
          (compute_strain_volume_newmark base p).deformation_gradient_increment_.det *
        (compute_strain_volume_newmark base
          (compute_strain_volume_newmark base p)).deformation_gradient_increment_.det := rfl
  refine ⟨rfl, rfl, rfl, ?_, rfl, rfl, rfl, ?_, hinc2, ?_⟩
  · simp only [compute_strain]
    field_simp
    ring
  · simp only [compute_strain_volume_newmark]
    field_simp
    ring
  · rw [hvol2, hinc2]
    exact congrArg (fun x => x * _) (mul_div_cancel_right₀ _ hnewmark)

theorem particle_mass_conserved_witness :
    stretchedParticle.deformation_gradient_increment_.det ≠ 0 ∧
    (growingBase.withDt stretchedParticle 2).det ≠ 0 ∧
    (growingBase.withoutDt
      (ParticleFiniteStrain.mk
        (stretchedParticle.volume_ / stretchedParticle.deformation_gradient_increment_.det)
        (stretchedParticle.mass_density_ *
          stretchedParticle.deformation_gradient_increment_.det)
        stretchedParticle.deformation_gradient_increment_)).det ≠ 0 ∧
    stretchedParticle.volume_ = 2 ∧ stretchedParticle.mass_density_ = 3 ∧
    stretchedParticle.deformation_gradient_increment_.det = 2 ∧
    (compute_strain growingBase stretchedParticle 2).volume_ = 6 ∧
    (compute_strain growingBase stretchedParticle 2).mass_density_ = 1 ∧
    (compute_strain_volume_newmark growingBase stretchedParticle).volume_ = 5 ∧
    (compute_strain_volume_newmark growingBase stretchedParticle).mass_density_ = 6 / 5 ∧
    (compute_strain_volume_newmark growingBase
      (compute_strain_volume_newmark growingBase stretchedParticle)).volume_ = 5 :=
  have hd : stretchedParticle.deformation_gradient_increment_.det = 2 := by
    simp [stretchedParticle, Matrix.det_diagonal, Fin.prod_univ_three]
  have h1 : (growingBase.withDt stretchedParticle 2).det = 3 := by
    simp [growingBase, Matrix.det_diagonal, Fin.prod_univ_three]
    norm_num
  have h2 : (growingBase.withoutDt
      (ParticleFiniteStrain.mk
        (stretchedParticle.volume_ / stretchedParticle.deformation_gradient_increment_.det)
        (stretchedParticle.mass_density_ *
          stretchedParticle.deformation_gradient_increment_.det)
        stretchedParticle.deformation_gradient_increment_)).det = 5 := by
    simp [growingBase, hd, stretchedParticle, Matrix.det_diagonal, Fin.prod_univ_three]
    norm_num
  have h3 : (growingBase.withoutDt
      (ParticleFiniteStrain.mk
        (stretchedParticle.volume_ / stretchedParticle.deformation_gradient_increment_.det)
        (stretchedParticle.mass_density_ *
          stretchedParticle.deformation_gradient_increment_.det)
        (compute_strain_volume_newmark growingBase
          stretchedParticle).deformation_gradient_increment_)).det = 5 := by
    simp [growingBase, hd, stretchedParticle, Matrix.det_diagonal, Fin.prod_univ_three]
    norm_num
  have hthm := particle_mass_conserved growingBase stretchedParticle 2
    (by rw [hd]; norm_num) (by rw [h1]; norm_num) (by rw [h2]; norm_num)
  ⟨by rw [hd]; norm_num, by rw [h1]; norm_num, by rw [h2]; norm_num, rfl, rfl, hd,
    by rw [hthm.2.1, h1]; simp [stretchedParticle]; norm_num,
    by rw [hthm.2.2.1, h1]; simp [stretchedParticle],
    by rw [hthm.2.2.2.2.2.1, h2, hd]; simp [stretchedParticle],
    by rw [hthm.2.2.2.2.2.2.1, h2, hd]; simp [stretchedParticle]; norm_num,
    by rw [hthm.2.2.2.2.2.2.2.2.2, h3, hd]; simp [stretchedParticle]⟩

end Xara
